import Mathlib

/-!
# MicroCloud cluster bootstrap: peer scanning and the bootstrap coordinator

A shallow embedding of `lookupPeers` and `Bootstrap` from
`cmd/microcloud/main_init.go`.

* Go maps are lists of entries (`GoMap`).  The operations never require the
  keys to be distinct; the maps the program builds from the empty map have
  distinct keys, and theorems about maps received from outside assume it.
* Go leaves the iteration order of `range` over a map unspecified.  A map that
  is ranged once (a discovery result) is given in the order it is visited.  For
  the maps ranged several times (`sh.Services`, `peers`) every `range`
  statement receives its own key order (`RangeOrder`).
* The external collaborators (services, JSON encoding, mDNS) are oracles, and
  every call made on them is recorded, with its result, in a trace of `Event`s.
  A run asks a service at most once for its bootstrap and at most once for the
  token of a given peer, and shuts the broadcast down at most once, so an
  oracle that is a function of the arguments loses nothing.
* The reader goroutine of `lookupPeers` appears only through what the `select`
  finds on `doneCh`; its own "Ending scan" line is not part of the trace.
* The two polling loops read one schedule entry per iteration: what the
  `select` finds ready and what the discovery lookup returns.  A run whose
  schedule ends while the loop is still polling has status `running`.
-/

namespace Microcloud

/-- Go's `map[K]V`, as the list of its entries. -/
abbrev GoMap (κ ν : Type) := List (κ × ν)

namespace GoMap

variable {κ ν : Type} [DecidableEq κ]

/-- The keys of the map, in entry order. -/
def keys (m : GoMap κ ν) : List κ := m.map Prod.fst

/-- The lookup `v, ok := m[x]`. -/
def get? : GoMap κ ν → κ → Option ν
  | [], _ => none
  | (k, v) :: m, x => if k = x then some v else get? m x

/-- The assignment `m[x] = v`: overwrite the entry of `x`, or add one. -/
def set : GoMap κ ν → κ → ν → GoMap κ ν
  | [], x, v => [(x, v)]
  | (k, w) :: m, x, v => if k = x then (k, v) :: m else (k, w) :: set m x v

/-- The builtin `delete(m, x)`; a no-op when `x` is absent. -/
def delete (m : GoMap κ ν) (x : κ) : GoMap κ ν :=
  m.filter (fun e => decide (e.1 ≠ x))

/-- The builtin `len(m)`. -/
def len (m : GoMap κ ν) : Nat := m.length

/-- The entries visited by `for k, v := range m` when the runtime walks the keys
in the order `order`. -/
def rangeOver (m : GoMap κ ν) (order : List κ) : GoMap κ ν :=
  order.filterMap (fun k => (get? m k).map (fun v => (k, v)))

end GoMap

/-- The type `service.ServiceType`, a string type. -/
abbrev ServiceType := String

/-- The token set `tokensByName`: peer name ↦ (service type ↦ token). -/
abbrev TokenSet := GoMap String (GoMap String String)

/-- The number of tokens held in a token set. -/
def TokenSet.count (ts : TokenSet) : Nat := (ts.map (fun e => e.2.length)).sum

/-- The capability set of `service.Service` used by `Bootstrap`:
`Bootstrap() error` and `IssueToken(peer string) (string, error)`. -/
structure Service where
  Bootstrap : Option String
  IssueToken : String → Except String String

/-- The fields of `service.ServiceHandler` read by `Bootstrap`. -/
structure ServiceHandler where
  Name : String
  Address : String
  Port : Int
  Services : GoMap ServiceType Service

deriving instance DecidableEq for Except

/-- The three mDNS service names of package `mdns`. -/
inductive MdnsService
  | ClusterService
  | TokenService
  | JoinedService
deriving DecidableEq, Repr

/-- What a run does to the outside world, in program order. -/
inductive Event
  /-- The call `fmt.Println(line)`. -/
  | Println (line : String)
  /-- The call `fmt.Printf(" Found %q at %q\n", peer, addr)`. -/
  | PrintFound (peer addr : String)
  /-- The call `fmt.Printf(" Local %s has been bootstrapped\n", t)`. -/
  | PrintBootstrapped (t : ServiceType)
  /-- The call `fmt.Printf(" Peer %q has joined the cluster\n", peer)`. -/
  | PrintJoined (peer : String)
  /-- The call `logger.Info(msg)`. -/
  | LogInfo (msg : String)
  /-- The call `time.Sleep(ms * time.Millisecond)`. -/
  | Sleep (ms : Nat)
  /-- The call `sh.Services[t].Bootstrap()` and the error it returned. -/
  | CallBootstrap (t : ServiceType) (err : Option String)
  /-- The call `sh.Services[t].IssueToken(peer)` and what it returned. -/
  | CallIssueToken (t : ServiceType) (peer : String) (res : Except String String)
  /-- The call `json.Marshal(tokensByName)`. -/
  | CallMarshal (tokens : TokenSet)
  /-- The call `mdns.NewBroadcast(svc, name, address, port, payload)` and its error. -/
  | CallNewBroadcast (svc : MdnsService) (name address : String) (port : Int)
      (payload : String) (err : Option String)
  /-- The call `server.Shutdown()` and the error it returned. -/
  | CallShutdown (err : Option String)
  /-- The call `mdns.LookupPeers(ctx, svc, name)` and what it returned. -/
  | CallLookupPeers (svc : MdnsService) (name : String)
      (res : Except String (GoMap String String))
deriving DecidableEq

namespace Event

/-- Recognises a call of `server.Shutdown()`. -/
def isShutdown : Event → Bool
  | CallShutdown _ => true
  | _ => false

/-- Recognises a call of `mdns.NewBroadcast`. -/
def isNewBroadcast : Event → Bool
  | CallNewBroadcast _ _ _ _ _ _ => true
  | _ => false

/-- Recognises a call of a service's `Bootstrap()`. -/
def isBootstrapCall : Event → Bool
  | CallBootstrap _ _ => true
  | _ => false

/-- Recognises a call of `json.Marshal`. -/
def isMarshal : Event → Bool
  | CallMarshal _ => true
  | _ => false

/-- Recognises a call of `IssueToken`. -/
def isIssueToken : Event → Bool
  | CallIssueToken _ _ _ => true
  | _ => false

/-- Recognises a call of `mdns.LookupPeers`. -/
def isLookupPeers : Event → Bool
  | CallLookupPeers _ _ _ => true
  | _ => false

/-- Recognises a call of `time.Sleep`. -/
def isSleep : Event → Bool
  | Sleep _ => true
  | _ => false

/-- Recognises the report "Cluster initialization is complete". -/
def isComplete : Event → Bool
  | Println line => decide (line = "Cluster initialization is complete")
  | _ => false

/-- Recognises the report that a peer has joined. -/
def isPrintJoined : Event → Bool
  | PrintJoined _ => true
  | _ => false

end Event

/-- The services whose `Bootstrap()` a trace calls, in call order. -/
def bootstrapCalls : List Event → List ServiceType
  | [] => []
  | Event.CallBootstrap t _ :: tr => t :: bootstrapCalls tr
  | _ :: tr => bootstrapCalls tr

/-- The peers a trace reports as joined, in report order. -/
def joinedReports : List Event → List String
  | [] => []
  | Event.PrintJoined p :: tr => p :: joinedReports tr
  | _ :: tr => joinedReports tr

/-- The errors `Bootstrap` builds with `fmt.Errorf`; `cause` is the wrapped
error. -/
inductive Error
  /-- Format "Missing MicroCloud service". -/
  | MissingMicroCloud
  /-- Format "Failed to bootstrap local %s: %w". -/
  | FailedBootstrap (t : ServiceType) (cause : String)
  /-- Format "Failed to issue %s token for peer %q: %w". -/
  | FailedIssue (t : ServiceType) (peer : String) (cause : String)
  /-- Format "Failed to marshal list of tokens: %w". -/
  | FailedMarshal (cause : String)
  /-- Format "Failed to begin join token broadcast: %w". -/
  | FailedBroadcast (cause : String)
  /-- Format "Failed to shutdown mDNS server after timeout: %w". -/
  | FailedShutdown (cause : String)
  /-- Format "Failed to lookup records from new cluster members: %w". -/
  | FailedLookup (cause : String)
deriving DecidableEq, Repr

/-- The text of an error; `quote` is the rendering of the verb `%q`. -/
def Error.message (quote : String → String) : Error → String
  | MissingMicroCloud => "Missing MicroCloud service"
  | FailedBootstrap t cause => "Failed to bootstrap local " ++ t ++ ": " ++ cause
  | FailedIssue t peer cause =>
    "Failed to issue " ++ t ++ " token for peer " ++ quote peer ++ ": " ++ cause
  | FailedMarshal cause => "Failed to marshal list of tokens: " ++ cause
  | FailedBroadcast cause => "Failed to begin join token broadcast: " ++ cause
  | FailedShutdown cause => "Failed to shutdown mDNS server after timeout: " ++ cause
  | FailedLookup cause =>
    "Failed to lookup records from new cluster members: " ++ cause

/-- How far a run got. -/
inductive Status (ρ : Type)
  /-- The schedule ended while the loop was still polling. -/
  | running
  /-- The function returned `r`. -/
  | returned (r : ρ)
deriving DecidableEq

/-! ## lookupPeers -/

/-- One iteration of the scanning loop: what the `select` finds on `doneCh`
(`none`: nothing to receive; `some none`: the channel is closed; `some (some e)`:
the reader sent the error `e`) and what `mdns.LookupPeers` returns if it is
called, in the order its entries are ranged over. -/
structure ScanTick where
  doneCh : Option (Option String)
  LookupPeers : Except String (GoMap String String)

/-- A run of `lookupPeers`. -/
structure ScanRun where
  trace : List Event
  status : Status (Except String (GoMap String String))
deriving DecidableEq

/-- Lines 140-146: merge one discovery result into `totalPeers`. -/
def mergePeers : GoMap String String → List (String × String) →
    List Event × GoMap String String
  | totalPeers, [] => ([], totalPeers)
  | totalPeers, (peer, addr) :: rest =>
    match totalPeers.get? peer with
    | some _ => mergePeers totalPeers rest
    | none =>
      let r := mergePeers (totalPeers.set peer addr) rest
      (Event.PrintFound peer addr :: r.1, r.2)

/-- Lines 126-155: the scanning loop.  With `auto` the channel `doneCh` is nil, so
its `select` case is never ready. -/
def scanLoop (name : String) (auto : Bool) :
    GoMap String String → List ScanTick → ScanRun
  | _, [] => ⟨[], Status.running⟩
  | totalPeers, tick :: rest =>
    match (if auto then none else tick.doneCh) with
    | some (some err) => ⟨[], Status.returned (Except.error err)⟩
    | some none => ⟨[], Status.returned (Except.ok totalPeers)⟩
    | none =>
      match tick.LookupPeers with
      | Except.error err =>
        ⟨[Event.CallLookupPeers MdnsService.ClusterService name (Except.error err)],
          Status.returned (Except.error err)⟩
      | Except.ok peers =>
        let m := mergePeers totalPeers peers
        let call := Event.CallLookupPeers MdnsService.ClusterService name (Except.ok peers)
        if auto then
          ⟨call :: m.1, Status.returned (Except.ok m.2)⟩
        else
          let r := scanLoop name auto m.2 rest
          ⟨call :: m.1 ++ Event.Sleep 5000 :: r.trace, r.status⟩

/-- The function `lookupPeers(s, auto)`, lines 101-158. -/
def lookupPeers (s : ServiceHandler) (auto : Bool) (sched : List ScanTick) : ScanRun :=
  let head := Event.Println "Scanning for eligible servers..." ::
    (if auto then [] else [Event.Println "Press enter to end scanning for servers"])
  let r := scanLoop s.Name auto [] sched
  ⟨head ++ r.trace, r.status⟩

/-! ## Bootstrap -/

/-- The key orders chosen by the runtime for the `range` statements of
`Bootstrap` over `sh.Services` (lines 175 and 189) and over `peers` (line 190,
once per service). -/
structure RangeOrder where
  bootstrap : List ServiceType
  issue : List ServiceType
  peers : ServiceType → List String

/-- The key orders visit every key of the two maps exactly once. -/
def RangeOrder.Valid (ord : RangeOrder) (services : GoMap ServiceType Service)
    (peers : GoMap String String) : Prop :=
  ord.bootstrap.Perm services.keys ∧ ord.issue.Perm services.keys ∧
    ∀ t, (ord.peers t).Perm peers.keys

/-- The collaborators of the broadcast phase: `json.Marshal`,
`mdns.NewBroadcast` and `server.Shutdown`. -/
structure World where
  Marshal : TokenSet → Except String String
  NewBroadcast : MdnsService → String → String → Int → String → Option String
  Shutdown : Option String

/-- One iteration of the reconciliation loop: whether `timeAfter` can be
received from, which case the `select` takes when both channels are ready, and
what `mdns.LookupPeers` returns if it is called, in the order its entries are
ranged over. -/
structure Tick where
  timeAfter : Bool
  pickTimeAfter : Bool
  LookupPeers : Except String (GoMap String String)

/-- A run of `Bootstrap`: its trace, its status (the returned `error`, `none`
for nil) and the value of `tokensByName` when it stopped, once the token set
has been built (the empty map for a run that stops before line 205). -/
structure BootstrapRun where
  trace : List Event
  status : Status (Option Error)
  tokensByName : TokenSet
deriving DecidableEq

/-- Lines 175-186: bootstrap every service but MicroCloud. -/
def bootstrapOthers (MicroCloud : ServiceType) :
    List (ServiceType × Service) → List Event × Option Error
  | [] => ([], none)
  | (serviceType, s) :: rest =>
    if serviceType = MicroCloud then bootstrapOthers MicroCloud rest
    else
      match s.Bootstrap with
      | some err =>
        ([Event.CallBootstrap serviceType (some err)],
          some (Error.FailedBootstrap serviceType err))
      | none =>
        let r := bootstrapOthers MicroCloud rest
        (Event.CallBootstrap serviceType none :: Event.PrintBootstrapped serviceType :: r.1,
          r.2)

/-- Lines 190-202: issue the tokens of one service, one per peer. -/
def issueForPeers (serviceType : ServiceType) (s : Service) :
    List String → TokenSet → List Event × Except Error TokenSet
  | [], tokensByName => ([], Except.ok tokensByName)
  | peer :: rest, tokensByName =>
    match s.IssueToken peer with
    | Except.error err =>
      ([Event.CallIssueToken serviceType peer (Except.error err)],
        Except.error (Error.FailedIssue serviceType peer err))
    | Except.ok token =>
      let inner := (tokensByName.get? peer).getD []
      let r := issueForPeers serviceType s rest
        (tokensByName.set peer (inner.set serviceType token))
      (Event.CallIssueToken serviceType peer (Except.ok token) :: r.1, r.2)

/-- Lines 189-203: issue the tokens of every service. -/
def issueTokens (peers : GoMap String String) (peerOrder : ServiceType → List String) :
    List (ServiceType × Service) → TokenSet → List Event × Except Error TokenSet
  | [], tokensByName => ([], Except.ok tokensByName)
  | (serviceType, s) :: rest, tokensByName =>
    match issueForPeers serviceType s (GoMap.keys (peers.rangeOver (peerOrder serviceType)))
        tokensByName with
    | (tr, Except.error err) => (tr, Except.error err)
    | (tr, Except.ok tokens) =>
      let r := issueTokens peers peerOrder rest tokens
      (tr ++ r.1, r.2)

/-- Lines 248-255: remove the announced peers from `tokensByName`, reporting
those that held tokens. -/
def reconcile : TokenSet → List (String × String) → List Event × TokenSet
  | tokensByName, [] => ([], tokensByName)
  | tokensByName, (peer, _) :: rest =>
    let r := reconcile (tokensByName.delete peer) rest
    match tokensByName.get? peer with
    | some _ => (Event.PrintJoined peer :: r.1, r.2)
    | none => r

/-- Lines 220-265: the reconciliation loop; `closed` tells whether
`bootstrapDoneCh` has been closed. -/
def awaitLoop (w : World) (name : String) : TokenSet → Bool → List Tick → BootstrapRun
  | tokensByName, _, [] => ⟨[], Status.running, tokensByName⟩
  | tokensByName, closed, tick :: rest =>
    if closed && !(tick.timeAfter && tick.pickTimeAfter) then
      match w.Shutdown with
      | some err =>
        ⟨[Event.Println "Cluster initialization is complete",
            Event.LogInfo "Shutting down broadcast", Event.CallShutdown (some err)],
          Status.returned (some (Error.FailedShutdown err)), tokensByName⟩
      | none =>
        ⟨[Event.Println "Cluster initialization is complete",
            Event.LogInfo "Shutting down broadcast", Event.CallShutdown none],
          Status.returned none, tokensByName⟩
    else if tick.timeAfter then
      match w.Shutdown with
      | some err =>
        ⟨[Event.LogInfo "Shutting down broadcast", Event.CallShutdown (some err)],
          Status.returned (some (Error.FailedShutdown err)), tokensByName⟩
      | none =>
        ⟨[Event.LogInfo "Shutting down broadcast", Event.CallShutdown none],
          Status.returned none, tokensByName⟩
    else
      match tick.LookupPeers with
      | Except.error err =>
        ⟨[Event.Sleep 100,
            Event.CallLookupPeers MdnsService.JoinedService name (Except.error err)],
          Status.returned (some (Error.FailedLookup err)), tokensByName⟩
      | Except.ok peers =>
        let m := reconcile tokensByName peers
        let r := awaitLoop w name m.2 (decide (m.2.len = 0)) rest
        ⟨Event.Sleep 100 ::
            Event.CallLookupPeers MdnsService.JoinedService name (Except.ok peers) ::
            m.1 ++ r.trace,
          r.status, r.tokensByName⟩

/-- Lines 188-268: token issuance, broadcast and reconciliation. -/
def issueAndAwait (sh : ServiceHandler) (peers : GoMap String String) (ord : RangeOrder)
    (w : World) (sched : List Tick) : BootstrapRun :=
  match issueTokens peers ord.peers (sh.Services.rangeOver ord.issue) [] with
  | (tr, Except.error err) => ⟨tr, Status.returned (some err), []⟩
  | (tr, Except.ok tokensByName) =>
    match w.Marshal tokensByName with
    | Except.error err =>
      ⟨tr ++ [Event.CallMarshal tokensByName],
        Status.returned (some (Error.FailedMarshal err)), tokensByName⟩
    | Except.ok bytes =>
      let pre := tr ++ [Event.CallMarshal tokensByName,
        Event.Println "Awaiting cluster formation..."]
      match w.NewBroadcast MdnsService.TokenService sh.Name sh.Address sh.Port bytes with
      | some err =>
        ⟨pre ++ [Event.CallNewBroadcast MdnsService.TokenService sh.Name sh.Address sh.Port
            bytes (some err)],
          Status.returned (some (Error.FailedBroadcast err)), tokensByName⟩
      | none =>
        let r := awaitLoop w sh.Name tokensByName false sched
        ⟨pre ++ Event.CallNewBroadcast MdnsService.TokenService sh.Name sh.Address sh.Port
            bytes none :: r.trace,
          r.status, r.tokensByName⟩

/-- The function `Bootstrap(sh, peers)`, lines 160-268; `MicroCloud` is the
constant `service.MicroCloud`. -/
def Bootstrap (MicroCloud : ServiceType) (sh : ServiceHandler) (peers : GoMap String String)
    (ord : RangeOrder) (w : World) (sched : List Tick) : BootstrapRun :=
  let hello := Event.Println "Initializing a new cluster"
  match sh.Services.get? MicroCloud with
  | none => ⟨[hello], Status.returned (some Error.MissingMicroCloud), []⟩
  | some cloudService =>
    match cloudService.Bootstrap with
    | some err =>
      ⟨[hello, Event.CallBootstrap MicroCloud (some err)],
        Status.returned (some (Error.FailedBootstrap MicroCloud err)), []⟩
    | none =>
      let pre := [hello, Event.CallBootstrap MicroCloud none,
        Event.PrintBootstrapped MicroCloud]
      match bootstrapOthers MicroCloud (sh.Services.rangeOver ord.bootstrap) with
      | (tr, some err) => ⟨pre ++ tr, Status.returned (some err), []⟩
      | (tr, none) =>
        let r := issueAndAwait sh peers ord w sched
        ⟨pre ++ tr ++ r.trace, r.status, r.tokensByName⟩

/-! ## Derived notions -/

/-- The accumulator `totalPeers` after a sequence of successful polls. -/
def mergeAll (totalPeers : GoMap String String) (polls : List (GoMap String String)) :
    GoMap String String :=
  polls.foldl (fun total r => (mergePeers total r).2) totalPeers

/-- The token set after reconciling a sequence of successful polls. -/
def afterPolls (tokensByName : TokenSet) (polls : List (GoMap String String)) : TokenSet :=
  polls.foldl (fun ts peers => (reconcile ts peers).2) tokensByName

/-- The token stored for peer `p` and service `t`, if any:
`tokensByName[p][t]`. -/
def tokenAt (tokensByName : TokenSet) (p t : String) : Option String :=
  (tokensByName.get? p).bind (fun inner => inner.get? t)

/-! ## A concrete session -/

/-- A service whose `Bootstrap()` succeeds and whose tokens are `tag` followed by
the peer name. -/
def exService (tag : String) : Service := ⟨none, fun peer => Except.ok (tag ++ peer)⟩

/-- A service whose `Bootstrap()` fails. -/
def exDownService : Service := ⟨some "daemon not running", fun peer => Except.ok peer⟩

/-- A service that issues tokens to every peer but "b". -/
def exPickyService : Service :=
  ⟨none, fun peer => if peer = "b" then Except.error "not authorized" else Except.ok peer⟩

/-- A handler with the primary service and one more. -/
def exHandler (lxd : Service) : ServiceHandler :=
  ⟨"node0", "10.0.0.1", 7443, [("MicroCloud", exService "mc-"), ("LXD", lxd)]⟩

/-- Two discovered peers. -/
def exPeers : GoMap String String := [("a", "10.0.0.2"), ("b", "10.0.0.3")]

/-- Key orders for the concrete session; the services are bootstrapped in the
opposite order to the one in which they issue tokens. -/
def exOrder : RangeOrder := ⟨["LXD", "MicroCloud"], ["MicroCloud", "LXD"], fun _ => ["a", "b"]⟩

/-- Collaborators that succeed, but for `server.Shutdown`, which returns
`shutdown`. -/
def exWorld (shutdown : Option String) : World :=
  ⟨fun _ => Except.ok "payload", fun _ _ _ _ _ => none, shutdown⟩

/-- The token set issued in the concrete session. -/
def exTokens : TokenSet :=
  [("a", [("MicroCloud", "mc-a"), ("LXD", "lxd-a")]),
    ("b", [("MicroCloud", "mc-b"), ("LXD", "lxd-b")])]

/-- The `IssueToken` calls of the concrete session. -/
def exIssueTrace : List Event :=
  [Event.CallIssueToken "MicroCloud" "a" (Except.ok "mc-a"),
    Event.CallIssueToken "MicroCloud" "b" (Except.ok "mc-b"),
    Event.CallIssueToken "LXD" "a" (Except.ok "lxd-a"),
    Event.CallIssueToken "LXD" "b" (Except.ok "lxd-b")]

/-- Two polls of joined peers: first "a" alone, then "b" and "a" again. -/
def exPolls : List (GoMap String String) :=
  [[("a", "10.0.0.2")], [("b", "10.0.0.3"), ("a", "10.0.0.2")]]

/-- The loop iterations that read `exPolls` before the deadline. -/
def exTicks : List Tick :=
  [⟨false, false, Except.ok [("a", "10.0.0.2")]⟩,
    ⟨false, true, Except.ok [("b", "10.0.0.3"), ("a", "10.0.0.2")]⟩]

/-! ## Go maps -/

namespace GoMap

variable {κ ν : Type} [DecidableEq κ]

theorem get?_eq_none_iff (m : GoMap κ ν) (x : κ) : get? m x = none ↔ x ∉ keys m := by
  induction m with
  | nil => simp [get?, keys]
  | cons e m ih =>
    obtain ⟨k, v⟩ := e
    by_cases h : k = x
    · simp [get?, keys, h]
    · have h' : ¬ x = k := fun c => h c.symm
      simpa [get?, keys, h, h'] using ih

theorem mem_keys_iff (m : GoMap κ ν) (x : κ) : x ∈ keys m ↔ ∃ v, get? m x = some v := by
  rw [← Option.isSome_iff_exists, ← Option.ne_none_iff_isSome, Ne, get?_eq_none_iff]
  simp

theorem mem_of_get? (m : GoMap κ ν) (x : κ) (v : ν) (h : get? m x = some v) : (x, v) ∈ m := by
  induction m with
  | nil => simp [get?] at h
  | cons e m ih =>
    obtain ⟨k, w⟩ := e
    by_cases hk : k = x
    · simp [get?, hk] at h
      simp [hk, h]
    · simp [get?, hk] at h
      exact List.mem_cons_of_mem _ (ih h)

theorem get?_of_mem (m : GoMap κ ν) (hm : (keys m).Nodup) (x : κ) (v : ν) (h : (x, v) ∈ m) :
    get? m x = some v := by
  induction m with
  | nil => simp at h
  | cons e m ih =>
    obtain ⟨k, w⟩ := e
    simp only [keys, List.map_cons, List.nodup_cons] at hm
    rcases List.mem_cons.1 h with h | h
    · simp only [Prod.mk.injEq] at h
      simp [get?, h.1, h.2]
    · have hx : x ∈ List.map Prod.fst m := List.mem_map.2 ⟨(x, v), h, rfl⟩
      have hk : ¬ k = x := fun c => hm.1 (c ▸ hx)
      simpa [get?, hk] using ih hm.2 h

theorem get?_set (m : GoMap κ ν) (x y : κ) (v : ν) :
    get? (set m x v) y = if x = y then some v else get? m y := by
  induction m with
  | nil => simp [set, get?]
  | cons e m ih =>
    obtain ⟨k, w⟩ := e
    by_cases hk : k = x
    · subst hk
      by_cases hy : k = y <;> simp [set, get?, hy]
    · by_cases hy : k = y
      · subst hy
        have hxy : ¬ x = k := fun c => hk c.symm
        simp [set, get?, hk, hxy]
      · simp [set, get?, hk, hy, ih]

theorem mem_keys_set (m : GoMap κ ν) (x y : κ) (v : ν) :
    y ∈ keys (set m x v) ↔ y = x ∨ y ∈ keys m := by
  rw [mem_keys_iff, mem_keys_iff, get?_set]
  by_cases h : x = y
  · simp [h]
  · have h' : ¬ y = x := fun c => h c.symm
    simp [h, h']

theorem nodup_keys_set (m : GoMap κ ν) (x : κ) (v : ν) (h : (keys m).Nodup) :
    (keys (set m x v)).Nodup := by
  induction m with
  | nil => simp [set, keys]
  | cons e m ih =>
    obtain ⟨k, w⟩ := e
    have h2 : k ∉ keys m ∧ (keys m).Nodup := by simpa [keys] using h
    by_cases hk : k = x
    · simpa [set, hk, keys] using h
    · have hn : k ∉ keys (set m x v) := by
        rw [mem_keys_set]
        exact fun c => c.elim hk h2.1
      have := ih h2.2
      simp only [set, hk, if_false, keys, List.map_cons, List.nodup_cons]
      exact ⟨hn, this⟩

theorem mem_set (m : GoMap κ ν) (x : κ) (v : ν) (e : κ × ν) (h : e ∈ set m x v) :
    e ∈ m ∨ e = (x, v) := by
  induction m with
  | nil => simpa [set] using h
  | cons a m ih =>
    obtain ⟨k, w⟩ := a
    by_cases hk : k = x
    · simp only [set, hk, if_true, List.mem_cons] at h
      rcases h with h | h
      · exact Or.inr h
      · exact Or.inl (List.mem_cons_of_mem _ h)
    · simp only [set, hk, if_false, List.mem_cons] at h
      rcases h with h | h
      · exact Or.inl (h ▸ List.mem_cons_self _ _)
      · exact (ih h).imp (List.mem_cons_of_mem _) id

theorem set_of_not_mem (m : GoMap κ ν) (x : κ) (v : ν) (h : x ∉ keys m) :
    set m x v = m ++ [(x, v)] := by
  induction m with
  | nil => simp [set]
  | cons e m ih =>
    obtain ⟨k, w⟩ := e
    have h2 : ¬ x = k ∧ x ∉ keys m := by simpa [keys] using h
    have hk : ¬ k = x := fun c => h2.1 c.symm
    simp [set, hk, ih h2.2]

theorem delete_cons (e : κ × ν) (m : GoMap κ ν) (x : κ) :
    delete (e :: m) x = if e.1 = x then delete m x else e :: delete m x := by
  by_cases h : e.1 = x <;> simp [delete, List.filter_cons, h]

theorem get?_delete (m : GoMap κ ν) (x y : κ) :
    get? (delete m x) y = if x = y then none else get? m y := by
  induction m with
  | nil => simp [delete, get?]
  | cons e m ih =>
    obtain ⟨k, w⟩ := e
    rw [delete_cons]
    by_cases hk : k = x
    · subst hk
      by_cases hy : k = y
      · simpa [hy] using ih
      · simpa [get?, hy] using ih
    · by_cases hy : k = y
      · subst hy
        have hxy : ¬ x = k := fun c => hk c.symm
        simp [get?, hk, hxy]
      · simp [get?, hk, hy, ih]

theorem delete_eq_filter (m : GoMap κ ν) (x : κ) :
    delete m x = m.filter (fun e => decide (e.1 ≠ x)) := rfl

end GoMap

/-! ## The peer scanner -/

theorem mergePeers_get?_old (totalPeers : GoMap String String) (r : List (String × String))
    (name addr : String) (h : totalPeers.get? name = some addr) :
    (mergePeers totalPeers r).2.get? name = some addr := by
  induction r generalizing totalPeers with
  | nil => simpa [mergePeers] using h
  | cons e rest ih =>
    obtain ⟨p, a⟩ := e
    cases hp : totalPeers.get? p with
    | some b => simpa [mergePeers, hp] using ih totalPeers h
    | none =>
      have hne : ¬ p = name := fun c => by rw [c, h] at hp; cases hp
      have h2 : (totalPeers.set p a).get? name = some addr := by
        rw [GoMap.get?_set]; simpa [hne] using h
      simpa [mergePeers, hp] using ih (totalPeers.set p a) h2

theorem mergePeers_get?_new (totalPeers : GoMap String String) (r : List (String × String))
    (name : String) (h : totalPeers.get? name = none) :
    (mergePeers totalPeers r).2.get? name = GoMap.get? r name := by
  induction r generalizing totalPeers with
  | nil => simpa [mergePeers, GoMap.get?] using h
  | cons e rest ih =>
    obtain ⟨p, a⟩ := e
    cases hp : totalPeers.get? p with
    | some b =>
      have hne : ¬ p = name := fun c => by rw [c, h] at hp; cases hp
      simpa [mergePeers, hp, GoMap.get?, hne] using ih totalPeers h
    | none =>
      by_cases hpn : p = name
      · subst hpn
        have h2 : (totalPeers.set p a).get? p = some a := by
          rw [GoMap.get?_set]; simp
        simpa [mergePeers, hp, GoMap.get?] using mergePeers_get?_old _ rest p a h2
      · have h2 : (totalPeers.set p a).get? name = none := by
          rw [GoMap.get?_set]; simpa [hpn] using h
        simpa [mergePeers, hp, GoMap.get?, hpn] using ih (totalPeers.set p a) h2

theorem mergePeers_nodup (totalPeers : GoMap String String) (r : List (String × String))
    (h : (GoMap.keys totalPeers).Nodup) : (GoMap.keys (mergePeers totalPeers r).2).Nodup := by
  induction r generalizing totalPeers with
  | nil => simpa [mergePeers] using h
  | cons e rest ih =>
    obtain ⟨p, a⟩ := e
    cases hp : totalPeers.get? p with
    | some b => simpa [mergePeers, hp] using ih totalPeers h
    | none =>
      simpa [mergePeers, hp] using ih _ (GoMap.nodup_keys_set totalPeers p a h)

theorem mergePeers_mem_keys (totalPeers : GoMap String String) (r : List (String × String))
    (name : String) :
    name ∈ GoMap.keys (mergePeers totalPeers r).2 ↔
      name ∈ GoMap.keys totalPeers ∨ name ∈ GoMap.keys r := by
  cases h : totalPeers.get? name with
  | some addr =>
    have h1 : name ∈ GoMap.keys totalPeers := (GoMap.mem_keys_iff _ _).2 ⟨addr, h⟩
    have h2 : name ∈ GoMap.keys (mergePeers totalPeers r).2 :=
      (GoMap.mem_keys_iff _ _).2 ⟨addr, mergePeers_get?_old _ _ _ _ h⟩
    simp [h1, h2]
  | none =>
    have h1 : name ∉ GoMap.keys totalPeers := (GoMap.get?_eq_none_iff _ _).1 h
    rw [GoMap.mem_keys_iff, mergePeers_get?_new _ _ _ h, ← GoMap.mem_keys_iff]
    simp [h1]

/-- A freshly merged duplicate-free discovery result is stored unchanged, and every
one of its entries is reported as found. -/
theorem mergePeers_fresh (totalPeers : GoMap String String) (r : List (String × String))
    (h : (GoMap.keys (totalPeers ++ r)).Nodup) :
    mergePeers totalPeers r =
      (r.map (fun e => Event.PrintFound e.1 e.2), totalPeers ++ r) := by
  induction r generalizing totalPeers with
  | nil => simp [mergePeers]
  | cons e rest ih =>
    obtain ⟨p, a⟩ := e
    have hk : GoMap.keys (totalPeers ++ (p, a) :: rest) =
        GoMap.keys totalPeers ++ p :: GoMap.keys rest := by simp [GoMap.keys]
    rw [hk] at h
    have hp : p ∉ GoMap.keys totalPeers := by
      intro c
      have := (List.nodup_append.1 h).2.2
      exact this c (List.mem_cons_self _ _)
    have hnone : totalPeers.get? p = none := (GoMap.get?_eq_none_iff _ _).2 hp
    have hset := GoMap.set_of_not_mem totalPeers p a hp
    have h' : (GoMap.keys ((totalPeers ++ [(p, a)]) ++ rest)).Nodup := by
      have : GoMap.keys ((totalPeers ++ [(p, a)]) ++ rest) =
          GoMap.keys totalPeers ++ p :: GoMap.keys rest := by simp [GoMap.keys]
      rw [this]; exact h
    have := ih (totalPeers ++ [(p, a)]) h'
    simp [mergePeers, hnone, hset, this]

theorem scanLoop_polls (name : String) (totalPeers : GoMap String String)
    (polls : List (GoMap String String)) (junk : Except String (GoMap String String))
    (rest : List ScanTick) :
    (scanLoop name false totalPeers
      (polls.map (fun r => ScanTick.mk none (Except.ok r)) ++ ScanTick.mk (some none) junk :: rest)).status
      = Status.returned (Except.ok (mergeAll totalPeers polls)) := by
  induction polls generalizing totalPeers with
  | nil => simp [scanLoop, mergeAll]
  | cons r polls ih =>
    simpa [scanLoop, mergeAll] using ih (mergePeers totalPeers r).2

theorem mergeAll_nodup (totalPeers : GoMap String String) (polls : List (GoMap String String))
    (h : (GoMap.keys totalPeers).Nodup) : (GoMap.keys (mergeAll totalPeers polls)).Nodup := by
  induction polls generalizing totalPeers with
  | nil => simpa [mergeAll] using h
  | cons r polls ih =>
    simpa [mergeAll] using ih _ (mergePeers_nodup totalPeers r h)

theorem mergeAll_get?_old (totalPeers : GoMap String String)
    (polls : List (GoMap String String)) (name addr : String)
    (h : totalPeers.get? name = some addr) :
    (mergeAll totalPeers polls).get? name = some addr := by
  induction polls generalizing totalPeers with
  | nil => simpa [mergeAll] using h
  | cons r polls ih =>
    simpa [mergeAll] using ih _ (mergePeers_get?_old totalPeers r name addr h)

theorem mergeAll_get?_new (totalPeers : GoMap String String)
    (polls : List (GoMap String String)) (name addr : String)
    (h : totalPeers.get? name = none) :
    (mergeAll totalPeers polls).get? name = some addr ↔
      ∃ pre r post, polls = pre ++ r :: post ∧ (∀ q ∈ pre, name ∉ GoMap.keys q) ∧
        GoMap.get? r name = some addr := by
  induction polls generalizing totalPeers with
  | nil => simp [mergeAll, h]
  | cons r polls ih =>
    have hstep : mergeAll totalPeers (r :: polls) = mergeAll (mergePeers totalPeers r).2 polls := by
      simp [mergeAll]
    rw [hstep]
    cases hr : GoMap.get? r name with
    | some a =>
      have h1 : (mergePeers totalPeers r).2.get? name = some a := by
        rw [mergePeers_get?_new _ _ _ h, hr]
      rw [mergeAll_get?_old _ polls name a h1]
      constructor
      · intro hEq
        exact ⟨[], r, polls, rfl, by simp, by rw [hr, hEq]⟩
      · rintro ⟨pre, r', post, hsplit, hpre, hget⟩
        cases pre with
        | nil =>
          simp only [List.nil_append, List.cons.injEq] at hsplit
          rw [← hsplit.1, hr] at hget
          exact hget
        | cons q pre =>
          simp only [List.cons_append, List.cons.injEq] at hsplit
          have := hpre q (List.mem_cons_self _ _)
          rw [← hsplit.1] at this
          exact absurd ((GoMap.mem_keys_iff _ _).2 ⟨a, hr⟩) this
    | none =>
      have h1 : (mergePeers totalPeers r).2.get? name = none := by
        rw [mergePeers_get?_new _ _ _ h, hr]
      rw [ih _ h1]
      constructor
      · rintro ⟨pre, r', post, hsplit, hpre, hget⟩
        refine ⟨r :: pre, r', post, by simp [hsplit], ?_, hget⟩
        intro q hq
        rcases List.mem_cons.1 hq with hq | hq
        · rw [hq]; exact (GoMap.get?_eq_none_iff _ _).1 hr
        · exact hpre q hq
      · rintro ⟨pre, r', post, hsplit, hpre, hget⟩
        cases pre with
        | nil =>
          simp only [List.nil_append, List.cons.injEq] at hsplit
          rw [← hsplit.1, hr] at hget
          cases hget
        | cons q pre =>
          simp only [List.cons_append, List.cons.injEq] at hsplit
          exact ⟨pre, r', post, hsplit.2, fun q' hq' => hpre q' (List.mem_cons_of_mem _ hq'), hget⟩

theorem mergeAll_mem_keys (totalPeers : GoMap String String)
    (polls : List (GoMap String String)) (name : String) :
    name ∈ GoMap.keys (mergeAll totalPeers polls) ↔
      name ∈ GoMap.keys totalPeers ∨ ∃ r ∈ polls, name ∈ GoMap.keys r := by
  induction polls generalizing totalPeers with
  | nil => simp [mergeAll]
  | cons r polls ih =>
    have hstep : mergeAll totalPeers (r :: polls) = mergeAll (mergePeers totalPeers r).2 polls := by
      simp [mergeAll]
    rw [hstep, ih, mergePeers_mem_keys]
    simp only [List.mem_cons, exists_eq_or_imp]
    tauto

/-- Claim C4.  When `lookupPeers` (interactive mode) processes the successful
discovery results `polls` and then finds `doneCh` closed, it returns a peer map
whose keys are distinct and are exactly the names occurring in some poll, and
which maps each name to its address in the earliest poll containing the name. -/
theorem lookupPeers_first_seen (s : ServiceHandler) (polls : List (GoMap String String))
    (junk : Except String (GoMap String String)) (rest : List ScanTick) :
    ∃ totalPeers : GoMap String String,
      (lookupPeers s false
        (polls.map (fun r => ScanTick.mk none (Except.ok r)) ++
          ScanTick.mk (some none) junk :: rest)).status
        = Status.returned (Except.ok totalPeers) ∧
      (GoMap.keys totalPeers).Nodup ∧
      (∀ name, name ∈ GoMap.keys totalPeers ↔ ∃ r ∈ polls, name ∈ GoMap.keys r) ∧
      (∀ name addr, totalPeers.get? name = some addr ↔
        ∃ pre r post, polls = pre ++ r :: post ∧ (∀ q ∈ pre, name ∉ GoMap.keys q) ∧
          GoMap.get? r name = some addr) := by
  refine ⟨mergeAll [] polls, ?_, ?_, ?_, ?_⟩
  · simpa [lookupPeers] using scanLoop_polls s.Name [] polls junk rest
  · exact mergeAll_nodup [] polls (by simp [GoMap.keys])
  · intro name
    simpa [GoMap.keys] using mergeAll_mem_keys [] polls name
  · intro name addr
    exact mergeAll_get?_new [] polls name addr rfl

/-- Claim C10.  With `auto = true` and a first discovery result `r` (a Go map, so
with distinct keys), `lookupPeers` calls `mdns.LookupPeers` exactly once, never
sleeps, reports every peer of `r` and returns `r` itself with no error, whatever
the rest of the schedule holds. -/
theorem lookupPeers_auto_single_shot (s : ServiceHandler) (r : GoMap String String)
    (d : Option (Option String)) (rest : List ScanTick) (h : (GoMap.keys r).Nodup) :
    (lookupPeers s true (ScanTick.mk d (Except.ok r) :: rest)).status
        = Status.returned (Except.ok r) ∧
      (lookupPeers s true (ScanTick.mk d (Except.ok r) :: rest)).trace
        = Event.Println "Scanning for eligible servers..." ::
          Event.CallLookupPeers MdnsService.ClusterService s.Name (Except.ok r) ::
          r.map (fun e => Event.PrintFound e.1 e.2) ∧
      (lookupPeers s true (ScanTick.mk d (Except.ok r) :: rest)).trace.countP
        Event.isLookupPeers = 1 ∧
      (lookupPeers s true (ScanTick.mk d (Except.ok r) :: rest)).trace.countP
        Event.isSleep = 0 := by
  have hm := mergePeers_fresh [] r (by simpa using h)
  have htrace : (lookupPeers s true (ScanTick.mk d (Except.ok r) :: rest)).trace
        = Event.Println "Scanning for eligible servers..." ::
          Event.CallLookupPeers MdnsService.ClusterService s.Name (Except.ok r) ::
          r.map (fun e => Event.PrintFound e.1 e.2) := by
    simp [lookupPeers, scanLoop, hm]
  refine ⟨by simp [lookupPeers, scanLoop, hm], htrace, ?_, ?_⟩
  · rw [htrace]
    simp [List.countP_cons, Event.isLookupPeers, List.countP_map, List.countP_eq_zero]
  · rw [htrace]
    simp [List.countP_cons, Event.isSleep, List.countP_map, List.countP_eq_zero]

/-- Claim C10 at a concrete input: an automatic scan whose only poll finds no
peer. -/
theorem lookupPeers_auto_single_shot_witness :
    (GoMap.keys ([] : GoMap String String)).Nodup ∧
      (lookupPeers ⟨"n0", "10.0.0.1", 7443, []⟩ true
        [ScanTick.mk none (Except.ok [])]).status = Status.returned (Except.ok []) :=
  ⟨by decide,
    (lookupPeers_auto_single_shot ⟨"n0", "10.0.0.1", 7443, []⟩ [] none [] (by decide)).1⟩

/-! ## Reconciliation of announced peers -/

theorem reconcile_tokens (T : TokenSet) (A : List (String × String)) :
    (reconcile T A).2 = T.filter (fun e => decide (e.1 ∉ GoMap.keys A)) := by
  induction A generalizing T with
  | nil => simp [reconcile, GoMap.keys]
  | cons a rest ih =>
    obtain ⟨p, x⟩ := a
    have h2 : (reconcile T ((p, x) :: rest)).2 = (reconcile (GoMap.delete T p) rest).2 := by
      cases h : GoMap.get? T p <;> simp [reconcile, h]
    rw [h2, ih, GoMap.delete_eq_filter, List.filter_filter]
    apply List.filter_congr
    intro e _
    by_cases h1 : e.1 = p <;> simp [GoMap.keys, h1]

theorem joinedReports_append (a b : List Event) :
    joinedReports (a ++ b) = joinedReports a ++ joinedReports b := by
  induction a with
  | nil => rfl
  | cons e a ih => cases e <;> simp [joinedReports, ih]

theorem mem_keys_filter {ν : Type} (m : GoMap String ν) (f : String × ν → Bool) (x : String)
    (h : x ∈ GoMap.keys (m.filter f)) : x ∈ GoMap.keys m ∧ ∃ v, f (x, v) = true := by
  simp only [GoMap.keys, List.mem_map, List.mem_filter] at h
  obtain ⟨e, ⟨he, hf⟩, rfl⟩ := h
  exact ⟨List.mem_map.2 ⟨e, he, rfl⟩, e.2, hf⟩

theorem reconcile_reports (T : TokenSet) (A : List (String × String)) :
    (joinedReports (reconcile T A).1).Nodup ∧
      ∀ x ∈ joinedReports (reconcile T A).1, x ∈ GoMap.keys T ∧ x ∈ GoMap.keys A := by
  induction A generalizing T with
  | nil => simp [reconcile, joinedReports]
  | cons a rest ih =>
    obtain ⟨p, y⟩ := a
    obtain ⟨hnd, hmem⟩ := ih (GoMap.delete T p)
    have hsub : ∀ x ∈ joinedReports (reconcile (GoMap.delete T p) rest).1,
        x ≠ p ∧ x ∈ GoMap.keys T ∧ x ∈ GoMap.keys rest := by
      intro x hx
      obtain ⟨h1, h2⟩ := hmem x hx
      rw [GoMap.delete_eq_filter] at h1
      obtain ⟨h3, v, h4⟩ := mem_keys_filter _ _ _ h1
      exact ⟨by simpa using h4, h3, h2⟩
    cases h : GoMap.get? T p with
    | none =>
      simp only [reconcile, h]
      refine ⟨hnd, fun x hx => ?_⟩
      obtain ⟨_, h2, h3⟩ := hsub x hx
      exact ⟨h2, by simp [GoMap.keys] at h3 ⊢; exact Or.inr h3⟩
    | some v =>
      simp only [reconcile, h, joinedReports, List.nodup_cons, List.mem_cons]
      refine ⟨⟨fun c => (hsub p c).1 rfl, hnd⟩, fun x hx => ?_⟩
      rcases hx with hx | hx
      · subst hx
        exact ⟨(GoMap.mem_keys_iff _ _).2 ⟨v, h⟩, by simp [GoMap.keys]⟩
      · obtain ⟨_, h2, h3⟩ := hsub x hx
        exact ⟨h2, by simp [GoMap.keys] at h3 ⊢; exact Or.inr h3⟩

theorem reconcile_absent (T : TokenSet) (A : List (String × String))
    (h : ∀ x ∈ GoMap.keys A, x ∉ GoMap.keys T) : reconcile T A = ([], T) := by
  induction A generalizing T with
  | nil => simp [reconcile]
  | cons a rest ih =>
    obtain ⟨p, y⟩ := a
    have hp : p ∉ GoMap.keys T := h p (by simp [GoMap.keys])
    have hget : GoMap.get? T p = none := (GoMap.get?_eq_none_iff _ _).2 hp
    have hdel : GoMap.delete T p = T := by
      rw [GoMap.delete_eq_filter, List.filter_eq_self]
      intro e he
      have : e.1 ≠ p := fun c => hp (c ▸ List.mem_map.2 ⟨e, he, rfl⟩)
      simpa using this
    have hrest : ∀ x ∈ GoMap.keys rest, x ∉ GoMap.keys T := fun x hx =>
      h x (by simp [GoMap.keys] at hx ⊢; exact Or.inr hx)
    simp [reconcile, hget, hdel, ih T hrest]

theorem awaitLoop_reports (w : World) (name : String) (T : TokenSet) (closed : Bool)
    (sched : List Tick) :
    (joinedReports (awaitLoop w name T closed sched).trace).Nodup ∧
      (∀ x ∈ joinedReports (awaitLoop w name T closed sched).trace, x ∈ GoMap.keys T) ∧
      (∀ x ∈ GoMap.keys (awaitLoop w name T closed sched).tokensByName, x ∈ GoMap.keys T) ∧
      (∀ x ∈ joinedReports (awaitLoop w name T closed sched).trace,
        x ∉ GoMap.keys (awaitLoop w name T closed sched).tokensByName) := by
  induction sched generalizing T closed with
  | nil => simp [awaitLoop, joinedReports]
  | cons tick rest ih =>
    unfold awaitLoop
    split
    · cases w.Shutdown <;> simp [joinedReports]
    · split
      · cases w.Shutdown <;> simp [joinedReports]
      · cases hl : tick.LookupPeers with
        | error err => simp [joinedReports]
        | ok peers =>
          obtain ⟨h1, h2, h3, h4⟩ :=
            ih (reconcile T peers).2 (decide ((reconcile T peers).2.len = 0))
          obtain ⟨r1, r2⟩ := reconcile_reports T peers
          have hkeys : ∀ x ∈ GoMap.keys (reconcile T peers).2,
              x ∈ GoMap.keys T ∧ x ∉ GoMap.keys peers := by
            intro x hx
            rw [reconcile_tokens] at hx
            obtain ⟨h5, v, h6⟩ := mem_keys_filter _ _ _ hx
            exact ⟨h5, by simpa using h6⟩
          simp only [joinedReports, List.append_eq, joinedReports_append]
          refine ⟨?_, ?_, ?_, ?_⟩
          · rw [List.nodup_append]
            refine ⟨r1, h1, ?_⟩
            intro x hx hx'
            exact (hkeys x (h2 x hx')).2 (r2 x hx).2
          · intro x hx
            rcases List.mem_append.1 hx with hx | hx
            · exact (r2 x hx).1
            · exact (hkeys x (h2 x hx)).1
          · intro x hx
            exact (hkeys x (h3 x hx)).1
          · intro x hx
            rcases List.mem_append.1 hx with hx | hx
            · intro c
              exact (hkeys x (h3 x c)).2 (r2 x hx).2
            · exact h4 x hx

/-- Claim C7.  Reconciling an already reconciled token set with the same
announcements changes nothing and reports nothing (the step has no error
outcome); and in any run of the reconciliation loop, whatever the polls return,
no peer is reported as joined twice, and a reported peer is absent from the
token set from then on. -/
theorem reconcile_idempotent (T : TokenSet) (A : GoMap String String) :
    reconcile (reconcile T A).2 A = ([], (reconcile T A).2) ∧
      ∀ (w : World) (name : String) (closed : Bool) (sched : List Tick),
        (joinedReports (awaitLoop w name T closed sched).trace).Nodup ∧
        ∀ x ∈ joinedReports (awaitLoop w name T closed sched).trace,
          x ∉ GoMap.keys (awaitLoop w name T closed sched).tokensByName := by
  refine ⟨reconcile_absent _ _ ?_, fun w name closed sched => ?_⟩
  · intro x hx c
    rw [reconcile_tokens] at c
    obtain ⟨_, v, h⟩ := mem_keys_filter _ _ _ c
    simp at h
    exact h hx
  · obtain ⟨h1, _, _, h4⟩ := awaitLoop_reports w name T closed sched
    exact ⟨h1, h4⟩

/-! ## Local bootstrap -/

theorem bootstrapCalls_append (a b : List Event) :
    bootstrapCalls (a ++ b) = bootstrapCalls a ++ bootstrapCalls b := by
  induction a with
  | nil => rfl
  | cons e a ih => cases e <;> simp [bootstrapCalls, ih]

theorem bootstrapCalls_eq_nil (tr : List Event) (h : ∀ x ∈ tr, x.isBootstrapCall = false) :
    bootstrapCalls tr = [] := by
  induction tr with
  | nil => rfl
  | cons e tr ih =>
    have h1 := h e (List.mem_cons_self _ _)
    have h2 := ih (fun x hx => h x (List.mem_cons_of_mem _ hx))
    cases e <;> simp_all [bootstrapCalls, Event.isBootstrapCall]

theorem bootstrapOthers_kinds (mc : ServiceType) (l : List (ServiceType × Service)) :
    ∀ x ∈ (bootstrapOthers mc l).1, x.isIssueToken = false ∧ x.isMarshal = false ∧
      x.isNewBroadcast = false ∧ x.isShutdown = false ∧ x.isLookupPeers = false := by
  induction l with
  | nil => simp [bootstrapOthers]
  | cons a l ih =>
    obtain ⟨t, s⟩ := a
    by_cases ht : t = mc
    · simpa [bootstrapOthers, ht] using ih
    · cases hb : s.Bootstrap with
      | some err =>
        simp [bootstrapOthers, ht, hb, Event.isIssueToken, Event.isMarshal,
          Event.isNewBroadcast, Event.isShutdown, Event.isLookupPeers]
      | none =>
        intro x hx
        simp only [bootstrapOthers, ht, hb, if_false, List.mem_cons] at hx
        rcases hx with hx | hx | hx
        · subst hx; simp [Event.isIssueToken, Event.isMarshal,
            Event.isNewBroadcast, Event.isShutdown, Event.isLookupPeers]
        · subst hx; simp [Event.isIssueToken, Event.isMarshal,
            Event.isNewBroadcast, Event.isShutdown, Event.isLookupPeers]
        · exact ih x hx

theorem bootstrapOthers_calls (mc : ServiceType) (l : List (ServiceType × Service)) :
    mc ∉ bootstrapCalls (bootstrapOthers mc l).1 ∧
      ((bootstrapOthers mc l).2 = none →
        bootstrapCalls (bootstrapOthers mc l).1 =
          (GoMap.keys l).filter (fun t => decide (t ≠ mc))) := by
  induction l with
  | nil => simp [bootstrapOthers, bootstrapCalls, GoMap.keys]
  | cons a l ih =>
    obtain ⟨t, s⟩ := a
    by_cases ht : t = mc
    · simpa [bootstrapOthers, ht, GoMap.keys] using ih
    · have ht' : ¬ mc = t := fun c => ht c.symm
      cases hb : s.Bootstrap with
      | some err => simp [bootstrapOthers, ht, ht', hb, bootstrapCalls]
      | none =>
        simp only [bootstrapOthers, ht, hb, if_false, bootstrapCalls, List.mem_cons, not_or]
        refine ⟨⟨ht', ih.1⟩, fun h => ?_⟩
        have := ih.2 h
        simp [GoMap.keys, List.filter_cons, ht] at this ⊢
        exact this

theorem bootstrapOthers_failed (mc : ServiceType) (l : List (ServiceType × Service))
    (t : ServiceType) (e : String)
    (h : Event.CallBootstrap t (some e) ∈ (bootstrapOthers mc l).1) :
    (bootstrapOthers mc l).2 = some (Error.FailedBootstrap t e) := by
  induction l with
  | nil => simp [bootstrapOthers] at h
  | cons a l ih =>
    obtain ⟨t', s⟩ := a
    by_cases ht : t' = mc
    · simp only [bootstrapOthers, ht, if_true] at h ⊢
      exact ih h
    · cases hb : s.Bootstrap with
      | some err =>
        simp only [bootstrapOthers, ht, hb, if_false, List.mem_singleton,
          Event.CallBootstrap.injEq, Option.some.injEq] at h ⊢
        rw [h.1, h.2]
      | none =>
        simp only [bootstrapOthers, ht, hb, if_false, List.mem_cons, Event.CallBootstrap.injEq,
          reduceCtorEq, and_false, false_or] at h ⊢
        exact ih h

theorem bootstrapOthers_ok (mc : ServiceType) (l : List (ServiceType × Service))
    (h : ∀ a ∈ l, a.2.Bootstrap = none) : (bootstrapOthers mc l).2 = none := by
  induction l with
  | nil => simp [bootstrapOthers]
  | cons a l ih =>
    obtain ⟨t, s⟩ := a
    have hs : s.Bootstrap = none := h (t, s) (List.mem_cons_self _ _)
    have hl := ih (fun a ha => h a (List.mem_cons_of_mem _ ha))
    by_cases ht : t = mc
    · simpa [bootstrapOthers, ht] using hl
    · simpa [bootstrapOthers, ht, hs] using hl

theorem rangeOver_mem {ν : Type} (m : GoMap String ν) (order : List String) (a : String × ν)
    (h : a ∈ GoMap.rangeOver m order) : a ∈ m ∧ a.1 ∈ order := by
  simp only [GoMap.rangeOver, List.mem_filterMap] at h
  obtain ⟨k, hk, hv⟩ := h
  cases hg : GoMap.get? m k with
  | none => simp [hg] at hv
  | some v =>
    simp only [hg, Option.map_some', Option.some.injEq] at hv
    subst hv
    exact ⟨GoMap.mem_of_get? m k v hg, hk⟩

theorem rangeOver_keys {ν : Type} (m : GoMap String ν) (order : List String)
    (h : ∀ k ∈ order, k ∈ GoMap.keys m) : GoMap.keys (GoMap.rangeOver m order) = order := by
  induction order with
  | nil => simp [GoMap.rangeOver, GoMap.keys]
  | cons k order ih =>
    obtain ⟨v, hv⟩ := (GoMap.mem_keys_iff m k).1 (h k (List.mem_cons_self _ _))
    have := ih (fun k' hk' => h k' (List.mem_cons_of_mem _ hk'))
    simp only [GoMap.rangeOver, GoMap.keys] at this ⊢
    simp [List.filterMap_cons, hv, this]

/-! ## Token issuance: the calls made -/

theorem issueForPeers_kinds (t : ServiceType) (s : Service) (ps : List String) (ts : TokenSet) :
    ∀ x ∈ (issueForPeers t s ps ts).1, x.isBootstrapCall = false ∧ x.isMarshal = false ∧
      x.isNewBroadcast = false ∧ x.isShutdown = false ∧ x.isLookupPeers = false := by
  induction ps generalizing ts with
  | nil => simp [issueForPeers]
  | cons p ps ih =>
    cases hi : s.IssueToken p with
    | error err =>
      simp [issueForPeers, hi, Event.isBootstrapCall, Event.isMarshal,
        Event.isNewBroadcast, Event.isShutdown, Event.isLookupPeers]
    | ok token =>
      intro x hx
      simp only [issueForPeers, hi, List.mem_cons] at hx
      rcases hx with hx | hx
      · subst hx; simp [Event.isBootstrapCall, Event.isMarshal,
          Event.isNewBroadcast, Event.isShutdown, Event.isLookupPeers]
      · exact ih _ x hx

theorem issueForPeers_failed (t : ServiceType) (s : Service) (ps : List String) (ts : TokenSet)
    (t' p e : String)
    (h : Event.CallIssueToken t' p (Except.error e) ∈ (issueForPeers t s ps ts).1) :
    (issueForPeers t s ps ts).2 = Except.error (Error.FailedIssue t' p e) ∧
      ∃ pre, (issueForPeers t s ps ts).1 = pre ++ [Event.CallIssueToken t' p (Except.error e)] := by
  induction ps generalizing ts with
  | nil => simp [issueForPeers] at h
  | cons q ps ih =>
    cases hi : s.IssueToken q with
    | error err =>
      simp only [issueForPeers, hi, List.mem_singleton, Event.CallIssueToken.injEq,
        Except.error.injEq] at h ⊢
      obtain ⟨h1, h2, h3⟩ := h
      subst h1 h2 h3
      exact ⟨rfl, [], rfl⟩
    | ok token =>
      simp only [issueForPeers, hi, List.mem_cons, Event.CallIssueToken.injEq, reduceCtorEq,
        and_false, false_or] at h ⊢
      obtain ⟨h1, pre, h2⟩ := ih _ h
      exact ⟨h1, Event.CallIssueToken t q (Except.ok token) :: pre, by rw [h2]; rfl⟩

theorem issueTokens_kinds (peers : GoMap String String) (po : ServiceType → List String)
    (l : List (ServiceType × Service)) (ts : TokenSet) :
    ∀ x ∈ (issueTokens peers po l ts).1, x.isBootstrapCall = false ∧ x.isMarshal = false ∧
      x.isNewBroadcast = false ∧ x.isShutdown = false ∧ x.isLookupPeers = false := by
  induction l generalizing ts with
  | nil => simp [issueTokens]
  | cons a l ih =>
    obtain ⟨t, s⟩ := a
    have hk := issueForPeers_kinds t s (GoMap.keys (peers.rangeOver (po t))) ts
    rcases hf : issueForPeers t s (GoMap.keys (peers.rangeOver (po t))) ts with ⟨tr, err | ts1⟩
    · rw [hf] at hk
      simpa [issueTokens, hf] using hk
    · rw [hf] at hk
      intro x hx
      simp only [issueTokens, hf, List.mem_append] at hx
      rcases hx with hx | hx
      · exact hk x hx
      · exact ih _ x hx

theorem issueTokens_failed (peers : GoMap String String) (po : ServiceType → List String)
    (l : List (ServiceType × Service)) (ts : TokenSet) (t' p e : String)
    (h : Event.CallIssueToken t' p (Except.error e) ∈ (issueTokens peers po l ts).1) :
    (issueTokens peers po l ts).2 = Except.error (Error.FailedIssue t' p e) ∧
      ∃ pre, (issueTokens peers po l ts).1 =
        pre ++ [Event.CallIssueToken t' p (Except.error e)] := by
  induction l generalizing ts with
  | nil => simp [issueTokens] at h
  | cons a l ih =>
    obtain ⟨t, s⟩ := a
    have hk := issueForPeers_failed t s (GoMap.keys (peers.rangeOver (po t))) ts t' p e
    rcases hf : issueForPeers t s (GoMap.keys (peers.rangeOver (po t))) ts with ⟨tr, err | ts1⟩
    · rw [hf] at hk
      simp only [issueTokens, hf] at h ⊢
      exact hk h
    · rw [hf] at hk
      simp only [issueTokens, hf, List.mem_append] at h ⊢
      rcases h with h | h
      · have := (hk h).1
        simp at this
      · obtain ⟨h1, pre, h2⟩ := ih _ h
        exact ⟨h1, tr ++ pre, by rw [h2, List.append_assoc]⟩

/-! ## The reconciliation loop: the calls made -/

theorem reconcile_kinds (T : TokenSet) (A : List (String × String)) :
    ∀ x ∈ (reconcile T A).1, x.isBootstrapCall = false ∧ x.isIssueToken = false ∧
      x.isMarshal = false ∧ x.isNewBroadcast = false ∧ x.isShutdown = false ∧
      x.isLookupPeers = false := by
  induction A generalizing T with
  | nil => simp [reconcile]
  | cons a rest ih =>
    obtain ⟨p, y⟩ := a
    cases h : GoMap.get? T p with
    | none => simpa [reconcile, h] using ih (GoMap.delete T p)
    | some v =>
      intro x hx
      simp only [reconcile, h, List.mem_cons] at hx
      rcases hx with hx | hx
      · subst hx; simp [Event.isBootstrapCall, Event.isIssueToken, Event.isMarshal,
          Event.isNewBroadcast, Event.isShutdown, Event.isLookupPeers]
      · exact ih _ x hx

theorem awaitLoop_kinds (w : World) (name : String) (T : TokenSet) (closed : Bool)
    (sched : List Tick) :
    ∀ x ∈ (awaitLoop w name T closed sched).trace, x.isBootstrapCall = false ∧
      x.isIssueToken = false ∧ x.isMarshal = false ∧ x.isNewBroadcast = false := by
  induction sched generalizing T closed with
  | nil => simp [awaitLoop]
  | cons tick rest ih =>
    unfold awaitLoop
    split
    · cases w.Shutdown <;>
        simp [Event.isBootstrapCall, Event.isIssueToken, Event.isMarshal, Event.isNewBroadcast]
    · split
      · cases w.Shutdown <;>
          simp [Event.isBootstrapCall, Event.isIssueToken, Event.isMarshal,
            Event.isNewBroadcast]
      · cases hl : tick.LookupPeers with
        | error err =>
          simp [Event.isBootstrapCall, Event.isIssueToken, Event.isMarshal,
            Event.isNewBroadcast]
        | ok peers =>
          intro x hx
          simp only [List.mem_cons, List.append_eq, List.mem_append] at hx
          rcases hx with (hx | hx | hx) | hx
          · subst hx; simp [Event.isBootstrapCall, Event.isIssueToken, Event.isMarshal,
              Event.isNewBroadcast]
          · subst hx; simp [Event.isBootstrapCall, Event.isIssueToken, Event.isMarshal,
              Event.isNewBroadcast]
          · obtain ⟨h1, h2, h3, h4, _⟩ := reconcile_kinds T peers x hx
            exact ⟨h1, h2, h3, h4⟩
          · exact ih _ _ x hx

/-! ## Bootstrap: order of the calls and failures -/

theorem issueAndAwait_kinds (sh : ServiceHandler) (peers : GoMap String String)
    (ord : RangeOrder) (w : World) (sched : List Tick) :
    ∀ x ∈ (issueAndAwait sh peers ord w sched).trace, x.isBootstrapCall = false := by
  have hk := issueTokens_kinds peers ord.peers (sh.Services.rangeOver ord.issue) []
  have ha := awaitLoop_kinds w sh.Name
  intro x hx
  unfold issueAndAwait at hx
  rcases hf : issueTokens peers ord.peers (sh.Services.rangeOver ord.issue) [] with
    ⟨tr, err | ts0⟩
  · rw [hf] at hk hx
    exact (hk x hx).1
  · rw [hf] at hk hx
    simp only at hx
    cases hm : w.Marshal ts0 with
    | error err =>
      simp only [hm, List.mem_append, List.mem_singleton] at hx
      rcases hx with hx | hx
      · exact (hk x hx).1
      · subst hx; rfl
    | ok bytes =>
      cases hb : w.NewBroadcast MdnsService.TokenService sh.Name sh.Address sh.Port bytes with
      | some err =>
        simp only [hm, hb, List.mem_append, List.mem_cons, List.mem_singleton,
          List.not_mem_nil, or_false] at hx
        rcases hx with (hx | hx | hx) | hx
        · exact (hk x hx).1
        · subst hx; rfl
        · subst hx; rfl
        · subst hx; rfl
      | none =>
        simp only [hm, hb, List.mem_append, List.mem_cons, List.not_mem_nil, or_false] at hx
        rcases hx with (hx | hx | hx) | hx | hx
        · exact (hk x hx).1
        · subst hx; rfl
        · subst hx; rfl
        · subst hx; rfl
        · exact (ha _ _ _ x hx).1

theorem issueAndAwait_failed (sh : ServiceHandler) (peers : GoMap String String)
    (ord : RangeOrder) (w : World) (sched : List Tick) (t p e : String)
    (h : Event.CallIssueToken t p (Except.error e) ∈ (issueAndAwait sh peers ord w sched).trace) :
    (issueAndAwait sh peers ord w sched).status
        = Status.returned (some (Error.FailedIssue t p e)) ∧
      (∃ pre, (issueAndAwait sh peers ord w sched).trace =
        pre ++ [Event.CallIssueToken t p (Except.error e)]) ∧
      ∀ x ∈ (issueAndAwait sh peers ord w sched).trace, x.isNewBroadcast = false := by
  have hk := issueTokens_kinds peers ord.peers (sh.Services.rangeOver ord.issue) []
  have hfail := issueTokens_failed peers ord.peers (sh.Services.rangeOver ord.issue) [] t p e
  have ha := awaitLoop_kinds w sh.Name
  unfold issueAndAwait at h ⊢
  rcases hf : issueTokens peers ord.peers (sh.Services.rangeOver ord.issue) [] with
    ⟨tr, err | ts0⟩
  · rw [hf] at hk hfail h
    simp only at h hfail ⊢
    obtain ⟨h1, h2⟩ := hfail h
    simp only [Except.error.injEq] at h1
    exact ⟨by rw [h1], h2, fun x hx => (hk x hx).2.2.1⟩
  · rw [hf] at hk hfail h
    simp only at h hfail
    have hnot : Event.CallIssueToken t p (Except.error e) ∉ tr := fun c => by
      have := (hfail c).1
      simp at this
    exfalso
    cases hm : w.Marshal ts0 with
    | error err =>
      simp only [hm, List.mem_append, List.mem_singleton, reduceCtorEq, or_false] at h
      exact hnot h
    | ok bytes =>
      cases hb : w.NewBroadcast MdnsService.TokenService sh.Name sh.Address sh.Port bytes with
      | some err =>
        simp only [hm, hb, List.mem_append, List.mem_cons, List.mem_singleton,
          List.not_mem_nil, reduceCtorEq, or_false] at h
        exact hnot h
      | none =>
        simp only [hm, hb, List.mem_append, List.mem_cons, List.not_mem_nil, reduceCtorEq,
          or_false, false_or] at h
        rcases h with h | h
        · exact hnot h
        · have := (ha _ _ _ _ h).2.1
          simp [Event.isIssueToken] at this

theorem perm_cons_filter_ne (l : List String) (a : String) (hl : l.Nodup) (ha : a ∈ l) :
    (a :: l.filter (fun t => decide (t ≠ a))).Perm l := by
  induction l with
  | nil => simp at ha
  | cons b l ih =>
    obtain ⟨hb, hl'⟩ := List.nodup_cons.1 hl
    by_cases hba : b = a
    · subst hba
      have : l.filter (fun t => !decide (t = b)) = l := by
        rw [List.filter_eq_self]
        intro x hx
        have : x ≠ b := fun c => hb (c ▸ hx)
        simpa using this
      simp [List.filter_cons, this]
    · have ha' : a ∈ l := by
        rcases List.mem_cons.1 ha with h | h
        · exact absurd h.symm hba
        · exact h
      have h1 : (b :: l).filter (fun t => decide (t ≠ a)) =
          b :: l.filter (fun t => decide (t ≠ a)) := by
        simp [List.filter_cons, hba]
      rw [h1]
      exact (List.Perm.swap b a _).trans ((ih hl' ha').cons b)

/-- Claim C3.  When the registry holds the primary service, the first
`Bootstrap()` call of every run is the primary's and no later call is the
primary's again; and when every service bootstraps successfully, the calls made
are exactly the services of the registry, each once. -/
theorem Bootstrap_primary_first (MicroCloud : ServiceType) (sh : ServiceHandler)
    (peers : GoMap String String) (ord : RangeOrder) (w : World) (sched : List Tick)
    (hmc : MicroCloud ∈ GoMap.keys sh.Services) :
    (∃ others, bootstrapCalls (Bootstrap MicroCloud sh peers ord w sched).trace
        = MicroCloud :: others ∧ MicroCloud ∉ others) ∧
      ((GoMap.keys sh.Services).Nodup → ord.bootstrap.Perm (GoMap.keys sh.Services) →
        (∀ a ∈ sh.Services, a.2.Bootstrap = none) →
        (bootstrapCalls (Bootstrap MicroCloud sh peers ord w sched).trace).Perm
          (GoMap.keys sh.Services)) := by
  obtain ⟨c, hc⟩ := (GoMap.mem_keys_iff _ _).1 hmc
  have hcalls := bootstrapOthers_calls MicroCloud (sh.Services.rangeOver ord.bootstrap)
  have hiaa := bootstrapCalls_eq_nil _ (issueAndAwait_kinds sh peers ord w sched)
  have hok := bootstrapOthers_ok MicroCloud (sh.Services.rangeOver ord.bootstrap)
  unfold Bootstrap
  simp only [hc]
  cases hb : c.Bootstrap with
  | some err =>
    refine ⟨⟨[], by simp [bootstrapCalls], by simp⟩, fun _ _ hall => ?_⟩
    have := hall (MicroCloud, c) (GoMap.mem_of_get? _ _ _ hc)
    rw [hb] at this
    cases this
  | none =>
    rcases ho : bootstrapOthers MicroCloud (sh.Services.rangeOver ord.bootstrap) with
      ⟨tr, _ | err⟩
    swap
    · rw [ho] at hcalls hok
      simp only at hcalls hok ⊢
      refine ⟨⟨bootstrapCalls tr, by simp [bootstrapCalls], hcalls.1⟩, fun _ _ hall => ?_⟩
      have := hok (fun a ha => hall a (rangeOver_mem _ _ a ha).1)
      cases this
    · rw [ho] at hcalls
      simp only at hcalls ⊢
      have hEq : bootstrapCalls ([Event.Println "Initializing a new cluster",
          Event.CallBootstrap MicroCloud none, Event.PrintBootstrapped MicroCloud] ++ tr ++
          (issueAndAwait sh peers ord w sched).trace) = MicroCloud :: bootstrapCalls tr := by
        rw [bootstrapCalls_append, hiaa]
        simp [bootstrapCalls]
      rw [hEq]
      refine ⟨⟨bootstrapCalls tr, rfl, hcalls.1⟩, fun hnd hperm _ => ?_⟩
      rw [hcalls.2 trivial, rangeOver_keys _ _ (fun k hk => hperm.subset hk)]
      exact (perm_cons_filter_ne _ _ (hperm.nodup_iff.2 hnd) (hperm.mem_iff.2 hmc)).trans hperm

/-- Claim C5.  If a run of `Bootstrap` makes an `IssueToken` call that fails, the
run returns the error built from the service type, the peer name and the cause
of that call, the failing call is the last thing the run does (so no further
`IssueToken` call is made), and `mdns.NewBroadcast` is never called. -/
theorem Bootstrap_issue_failure (MicroCloud : ServiceType) (sh : ServiceHandler)
    (peers : GoMap String String) (ord : RangeOrder) (w : World) (sched : List Tick)
    (t p e : String)
    (h : Event.CallIssueToken t p (Except.error e) ∈
      (Bootstrap MicroCloud sh peers ord w sched).trace) :
    (Bootstrap MicroCloud sh peers ord w sched).status
        = Status.returned (some (Error.FailedIssue t p e)) ∧
      (∃ pre, (Bootstrap MicroCloud sh peers ord w sched).trace =
        pre ++ [Event.CallIssueToken t p (Except.error e)]) ∧
      (∀ x ∈ (Bootstrap MicroCloud sh peers ord w sched).trace, x.isNewBroadcast = false) ∧
      ∀ quote : String → String, (Error.FailedIssue t p e).message quote =
        "Failed to issue " ++ t ++ " token for peer " ++ quote p ++ ": " ++ e := by
  have hk := bootstrapOthers_kinds MicroCloud (sh.Services.rangeOver ord.bootstrap)
  have hiaa := issueAndAwait_failed sh peers ord w sched t p e
  refine ⟨?_, ?_, ?_, fun _ => rfl⟩ <;> unfold Bootstrap at h ⊢
  all_goals
    cases hc : GoMap.get? sh.Services MicroCloud with
    | none => simp [hc] at h
    | some c =>
      cases hb : c.Bootstrap with
      | some err => simp [hc, hb] at h
      | none =>
        rcases ho : bootstrapOthers MicroCloud (sh.Services.rangeOver ord.bootstrap) with
          ⟨tr, _ | err⟩
        swap
        · rw [ho] at hk
          simp only [hc, hb, ho, List.mem_append, List.mem_cons, reduceCtorEq,
            List.not_mem_nil, or_false, false_or] at h
          have := (hk _ h).1
          simp [Event.isIssueToken] at this
        · rw [ho] at hk
          simp only [hc, hb, ho, List.mem_append, List.mem_cons, reduceCtorEq,
            List.not_mem_nil, or_false, false_or] at h
          have hin : Event.CallIssueToken t p (Except.error e) ∈
              (issueAndAwait sh peers ord w sched).trace := by
            rcases h with h | h
            · have := (hk _ h).1
              simp [Event.isIssueToken] at this
            · exact h
          obtain ⟨h1, ⟨pre, h2⟩, h3⟩ := hiaa hin
          simp only [hc, hb, ho]
          first
            | exact h1
            | exact ⟨_, by rw [h2, ← List.append_assoc]⟩
            | intro x hx
              simp only [List.mem_append, List.mem_cons, List.not_mem_nil, or_false] at hx
              rcases hx with ((hx | hx | hx) | hx) | hx
              · subst hx; rfl
              · subst hx; rfl
              · subst hx; rfl
              · exact (hk x hx).2.2.1
              · exact h3 x hx

/-- Claim C6.  If a run of `Bootstrap` makes a `Bootstrap()` call that fails, on
the primary or on any other service, the run returns the error built from that
service's type and the cause, and calls neither `IssueToken` nor
`mdns.NewBroadcast`. -/
theorem Bootstrap_bootstrap_failure (MicroCloud : ServiceType) (sh : ServiceHandler)
    (peers : GoMap String String) (ord : RangeOrder) (w : World) (sched : List Tick)
    (t e : String)
    (h : Event.CallBootstrap t (some e) ∈ (Bootstrap MicroCloud sh peers ord w sched).trace) :
    (Bootstrap MicroCloud sh peers ord w sched).status
        = Status.returned (some (Error.FailedBootstrap t e)) ∧
      (∀ x ∈ (Bootstrap MicroCloud sh peers ord w sched).trace,
        x.isIssueToken = false ∧ x.isNewBroadcast = false) ∧
      ∀ quote : String → String, (Error.FailedBootstrap t e).message quote =
        "Failed to bootstrap local " ++ t ++ ": " ++ e := by
  have hk := bootstrapOthers_kinds MicroCloud (sh.Services.rangeOver ord.bootstrap)
  have hfail := bootstrapOthers_failed MicroCloud (sh.Services.rangeOver ord.bootstrap) t e
  have hiaa := issueAndAwait_kinds sh peers ord w sched
  refine ⟨?_, ?_, fun _ => rfl⟩ <;> unfold Bootstrap at h ⊢
  all_goals
    cases hc : GoMap.get? sh.Services MicroCloud with
    | none => simp [hc] at h
    | some c =>
      cases hb : c.Bootstrap with
      | some err =>
        simp only [hc, hb, List.mem_cons, reduceCtorEq, Event.CallBootstrap.injEq,
          Option.some.injEq, List.not_mem_nil, or_false, false_or] at h
        obtain ⟨h1, h2⟩ := h
        subst h1 h2
        simp [hc, hb, Event.isIssueToken, Event.isNewBroadcast]
      | none =>
        rcases ho : bootstrapOthers MicroCloud (sh.Services.rangeOver ord.bootstrap) with
          ⟨tr, _ | err⟩
        swap
        · rw [ho] at hk hfail
          simp only [hc, hb, ho, List.mem_append, List.mem_cons, reduceCtorEq,
            Event.CallBootstrap.injEq, and_false, List.not_mem_nil, or_false, false_or] at h
          have h1 := hfail h
          simp only [Option.some.injEq] at h1
          first
            | (simp only [hc, hb, ho, h1]; done)
            | simp only [hc, hb, ho, h1]
              intro x hx
              simp only [List.mem_append, List.mem_cons, List.not_mem_nil, or_false] at hx
              rcases hx with (hx | hx | hx) | hx
              · subst hx; exact ⟨rfl, rfl⟩
              · subst hx; exact ⟨rfl, rfl⟩
              · subst hx; exact ⟨rfl, rfl⟩
              · exact ⟨(hk x hx).1, (hk x hx).2.2.1⟩
        · rw [ho] at hfail
          simp only [hc, hb, ho, List.mem_append, List.mem_cons, reduceCtorEq,
            Event.CallBootstrap.injEq, and_false, List.not_mem_nil, or_false, false_or] at h
          exfalso
          rcases h with h | h
          · have := hfail h
            simp at this
          · have := hiaa _ h
            simp [Event.isBootstrapCall] at this

/-! ## Token issuance: the token set built -/

theorem tokenAt_set (ts : TokenSet) (p t tok p' t' : String) :
    tokenAt (ts.set p (((ts.get? p).getD []).set t tok)) p' t' =
      if p' = p ∧ t' = t then some tok else tokenAt ts p' t' := by
  unfold tokenAt
  rw [GoMap.get?_set]
  by_cases hp : p = p'
  · subst hp
    simp only [if_true, Option.some_bind, GoMap.get?_set, true_and]
    by_cases ht : t = t'
    · subst ht; simp
    · have ht' : ¬ t' = t := fun c => ht c.symm
      cases hg : GoMap.get? ts p <;> simp [ht, ht', GoMap.get?]
  · have hp' : ¬ p' = p := fun c => hp c.symm
    simp [hp, hp']

theorem length_set_fresh (m : GoMap String String) (t tok : String)
    (h : GoMap.get? m t = none) : (m.set t tok).length = m.length + 1 := by
  rw [GoMap.set_of_not_mem m t tok ((GoMap.get?_eq_none_iff _ _).1 h)]
  simp

theorem count_set_fresh (ts : TokenSet) (p t tok : String) (h : tokenAt ts p t = none) :
    TokenSet.count (ts.set p (((ts.get? p).getD []).set t tok)) = TokenSet.count ts + 1 := by
  induction ts with
  | nil => simp [GoMap.set, GoMap.get?, TokenSet.count]
  | cons a ts ih =>
    obtain ⟨k, v⟩ := a
    by_cases hk : k = p
    · subst hk
      have hv : GoMap.get? v t = none := by simpa [tokenAt, GoMap.get?] using h
      have := length_set_fresh v t tok hv
      simp only [TokenSet.count, GoMap.get?, GoMap.set, if_true, Option.getD_some, List.map_cons,
        List.sum_cons, this]
      omega
    · have h' : tokenAt ts p t = none := by simpa [tokenAt, GoMap.get?, hk] using h
      have := ih h'
      simp only [TokenSet.count, GoMap.get?, GoMap.set, hk, if_false, List.map_cons,
        List.sum_cons] at this ⊢
      omega

theorem inner_nodup_set (ts : TokenSet) (p t tok : String)
    (h : ∀ a ∈ ts, (GoMap.keys a.2).Nodup) :
    ∀ a ∈ ts.set p (((ts.get? p).getD []).set t tok), (GoMap.keys a.2).Nodup := by
  intro a ha
  rcases GoMap.mem_set _ _ _ _ ha with ha | ha
  · exact h a ha
  · subst ha
    apply GoMap.nodup_keys_set
    cases hg : GoMap.get? ts p with
    | none => simp [GoMap.keys]
    | some v => exact h (p, v) (GoMap.mem_of_get? _ _ _ hg)

theorem issueForPeers_tokens (t : ServiceType) (s : Service) (ps : List String) (ts : TokenSet)
    (tr : List Event) (ts' : TokenSet) (h : issueForPeers t s ps ts = (tr, Except.ok ts')) :
    (∀ p ∈ ps, ∃ tok, s.IssueToken p = Except.ok tok) ∧
    (∀ p' t', tokenAt ts' p' t' =
      if t' = t ∧ p' ∈ ps then (s.IssueToken p').toOption else tokenAt ts p' t') ∧
    (ps.Nodup → (∀ p ∈ ps, tokenAt ts p t = none) →
      TokenSet.count ts' = TokenSet.count ts + ps.length) ∧
    (∀ p', p' ∈ GoMap.keys ts' ↔ p' ∈ GoMap.keys ts ∨ p' ∈ ps) ∧
    ((GoMap.keys ts).Nodup → (GoMap.keys ts').Nodup) ∧
    ((∀ a ∈ ts, (GoMap.keys a.2).Nodup) → ∀ a ∈ ts', (GoMap.keys a.2).Nodup) := by
  induction ps generalizing ts tr with
  | nil =>
    simp only [issueForPeers, Prod.mk.injEq, Except.ok.injEq] at h
    obtain ⟨_, rfl⟩ := h
    simp
  | cons q ps ih =>
    cases hi : s.IssueToken q with
    | error err => simp [issueForPeers, hi] at h
    | ok tok =>
      simp only [issueForPeers, hi, Prod.mk.injEq] at h
      obtain ⟨_, h2⟩ := h
      obtain ⟨i1, i2, i3, i4, i5, i6⟩ := ih _ _ (Prod.ext rfl h2)
      refine ⟨?_, ?_, ?_, ?_, ?_, ?_⟩
      · intro p hp
        rcases List.mem_cons.1 hp with hp | hp
        · exact ⟨tok, hp ▸ hi⟩
        · exact i1 p hp
      · intro p' t'
        rw [i2, tokenAt_set]
        by_cases ht : t' = t
        · by_cases hp : p' ∈ ps
          · have : p' ∈ q :: ps := List.mem_cons_of_mem _ hp
            simp [ht, hp]
          · by_cases hq : p' = q
            · subst hq
              simp [ht, hp, hi, Except.toOption]
            · simp [ht, hp, hq]
        · simp [ht]
      · intro hnd hfresh
        obtain ⟨hq, hnd'⟩ := List.nodup_cons.1 hnd
        have hc := count_set_fresh ts q t tok (hfresh q (List.mem_cons_self _ _))
        have := i3 hnd' (fun p hp => by
          rw [tokenAt_set]
          have hne : ¬ p = q := fun c => hq (c ▸ hp)
          simpa [hne] using hfresh p (List.mem_cons_of_mem _ hp))
        rw [this, hc, List.length_cons]
        omega
      · intro p'
        rw [i4, GoMap.mem_keys_set, List.mem_cons]
        tauto
      · intro hnd
        exact i5 (GoMap.nodup_keys_set _ _ _ hnd)
      · intro hnd
        exact i6 (inner_nodup_set ts q t tok hnd)

theorem issueForPeers_ok (t : ServiceType) (s : Service) (ps : List String) (ts : TokenSet)
    (h : ∀ p ∈ ps, ∃ tok, s.IssueToken p = Except.ok tok) :
    ∃ tr ts', issueForPeers t s ps ts = (tr, Except.ok ts') := by
  induction ps generalizing ts with
  | nil => exact ⟨[], ts, rfl⟩
  | cons q ps ih =>
    obtain ⟨tok, hi⟩ := h q (List.mem_cons_self _ _)
    obtain ⟨tr, ts', h'⟩ := ih (ts.set q (((ts.get? q).getD []).set t tok))
      (fun p hp => h p (List.mem_cons_of_mem _ hp))
    exact ⟨Event.CallIssueToken t q (Except.ok tok) :: tr, ts',
      by simp only [issueForPeers, hi, h']⟩

theorem issueTokens_tokens (peers : GoMap String String) (po : ServiceType → List String)
    (l : List (ServiceType × Service)) (ts : TokenSet) (tr : List Event) (ts' : TokenSet)
    (h : issueTokens peers po l ts = (tr, Except.ok ts'))
    (hl : (GoMap.keys l).Nodup)
    (hps : ∀ t, (GoMap.keys (peers.rangeOver (po t))).Perm (GoMap.keys peers))
    (hpk : (GoMap.keys peers).Nodup) :
    (∀ a ∈ l, ∀ p ∈ GoMap.keys peers,
      ∃ tok, a.2.IssueToken p = Except.ok tok ∧ tokenAt ts' p a.1 = some tok) ∧
    (∀ p' t', (p' ∉ GoMap.keys peers ∨ t' ∉ GoMap.keys l) →
      tokenAt ts' p' t' = tokenAt ts p' t') ∧
    ((∀ t ∈ GoMap.keys l, ∀ p ∈ GoMap.keys peers, tokenAt ts p t = none) →
      TokenSet.count ts' = TokenSet.count ts + l.length * peers.length) ∧
    (∀ p', p' ∈ GoMap.keys ts' ↔ p' ∈ GoMap.keys ts ∨ (l ≠ [] ∧ p' ∈ GoMap.keys peers)) ∧
    ((GoMap.keys ts).Nodup → (GoMap.keys ts').Nodup) ∧
    ((∀ a ∈ ts, (GoMap.keys a.2).Nodup) → ∀ a ∈ ts', (GoMap.keys a.2).Nodup) := by
  induction l generalizing ts tr with
  | nil =>
    simp only [issueTokens, Prod.mk.injEq, Except.ok.injEq] at h
    obtain ⟨_, rfl⟩ := h
    simp
  | cons a rest ih =>
    obtain ⟨t, s⟩ := a
    have hl2 : t ∉ GoMap.keys rest ∧ (GoMap.keys rest).Nodup := by
      simpa [GoMap.keys] using hl
    have hmem : ∀ p, p ∈ GoMap.keys (peers.rangeOver (po t)) ↔ p ∈ GoMap.keys peers :=
      fun p => (hps t).mem_iff
    rcases hf : issueForPeers t s (GoMap.keys (peers.rangeOver (po t))) ts with
      ⟨tr1, err | ts1⟩
    · simp [issueTokens, hf] at h
    · simp only [issueTokens, hf, Prod.mk.injEq] at h
      obtain ⟨j1, j2, j3, j4, j5, j6⟩ := issueForPeers_tokens t s _ ts tr1 ts1 hf
      obtain ⟨k1, k2, k3, k4, k5, k6⟩ := ih ts1 _ (Prod.ext rfl h.2) hl2.2
      refine ⟨?_, ?_, ?_, ?_, fun hnd => k5 (j5 hnd), fun hnd => k6 (j6 hnd)⟩
      · intro a ha p hp
        rcases List.mem_cons.1 ha with ha | ha
        · subst ha
          obtain ⟨tok, htok⟩ := j1 p ((hmem p).2 hp)
          refine ⟨tok, htok, ?_⟩
          rw [k2 p t (Or.inr hl2.1), j2]
          simp [(hmem p).2 hp, htok, Except.toOption]
        · exact k1 a ha p hp
      · intro p' t' hpt
        have h1 : p' ∉ GoMap.keys peers ∨ t' ∉ GoMap.keys rest := by
          rcases hpt with hpt | hpt
          · exact Or.inl hpt
          · exact Or.inr (fun c => hpt (by simp [GoMap.keys] at c ⊢; exact Or.inr c))
        rw [k2 p' t' h1, j2]
        have h2 : ¬ (t' = t ∧ p' ∈ GoMap.keys (peers.rangeOver (po t))) := by
          rintro ⟨c1, c2⟩
          rcases hpt with hpt | hpt
          · exact hpt ((hmem p').1 c2)
          · exact hpt (by simp [GoMap.keys, c1])
        simp [h2]
      · intro hfresh
        have hlen : (GoMap.keys (peers.rangeOver (po t))).length = peers.length := by
          rw [(hps t).length_eq]; simp [GoMap.keys]
        have c1 := j3 ((hps t).nodup_iff.2 hpk) (fun p hp =>
          hfresh t (by simp [GoMap.keys]) p ((hmem p).1 hp))
        have c2 := k3 (fun t' ht' p hp => by
          rw [j2]
          have hne : ¬ t' = t := fun c => hl2.1 (c ▸ ht')
          simpa [hne] using hfresh t' (by simp [GoMap.keys] at ht' ⊢; exact Or.inr ht') p hp)
        rw [c2, c1, hlen, List.length_cons, Nat.add_mul]
        omega
      · intro p'
        rw [k4, j4, hmem]
        by_cases hr : rest = [] <;> simp [hr]

theorem issueTokens_ok (peers : GoMap String String) (po : ServiceType → List String)
    (l : List (ServiceType × Service)) (ts : TokenSet)
    (h : ∀ a ∈ l, ∀ p ∈ GoMap.keys peers, ∃ tok, a.2.IssueToken p = Except.ok tok) :
    ∃ tr ts', issueTokens peers po l ts = (tr, Except.ok ts') := by
  induction l generalizing ts with
  | nil => exact ⟨[], ts, rfl⟩
  | cons a rest ih =>
    obtain ⟨t, s⟩ := a
    obtain ⟨tr1, ts1, h1⟩ := issueForPeers_ok t s (GoMap.keys (peers.rangeOver (po t))) ts
      (fun p hp => by
        obtain ⟨e, he, rfl⟩ := List.mem_map.1 hp
        exact h (t, s) (List.mem_cons_self _ _) e.1
          (List.mem_map.2 ⟨e, (rangeOver_mem peers _ e he).1, rfl⟩))
    obtain ⟨tr2, ts2, h2⟩ := ih ts1 (fun a ha => h a (List.mem_cons_of_mem _ ha))
    exact ⟨tr1 ++ tr2, ts2, by simp only [issueTokens, h1, h2]⟩

theorem issueAndAwait_marshal (sh : ServiceHandler) (peers : GoMap String String)
    (ord : RangeOrder) (w : World) (sched : List Tick) (ts : TokenSet)
    (h : Event.CallMarshal ts ∈ (issueAndAwait sh peers ord w sched).trace) :
    ∃ tr, issueTokens peers ord.peers (sh.Services.rangeOver ord.issue) [] = (tr, Except.ok ts) := by
  have hk := issueTokens_kinds peers ord.peers (sh.Services.rangeOver ord.issue) []
  have ha := awaitLoop_kinds w sh.Name
  unfold issueAndAwait at h
  rcases hf : issueTokens peers ord.peers (sh.Services.rangeOver ord.issue) [] with
    ⟨tr, err | ts0⟩
  · rw [hf] at hk h
    have := (hk _ h).2.1
    simp [Event.isMarshal] at this
  · rw [hf] at hk h
    simp only at h
    have hnot : Event.CallMarshal ts ∉ tr := fun c => by
      have := (hk _ c).2.1
      simp [Event.isMarshal] at this
    refine ⟨tr, ?_⟩
    cases hm : w.Marshal ts0 with
    | error err =>
      simp only [hm, List.mem_append, List.mem_singleton, Event.CallMarshal.injEq] at h
      rcases h with h | h
      · exact absurd h hnot
      · rw [h]
    | ok bytes =>
      cases hb : w.NewBroadcast MdnsService.TokenService sh.Name sh.Address sh.Port bytes with
      | some err =>
        simp only [hm, hb, List.mem_append, List.mem_cons, List.mem_singleton,
          List.not_mem_nil, reduceCtorEq, or_false, Event.CallMarshal.injEq] at h
        rcases h with h | h
        · exact absurd h hnot
        · rw [h]
      | none =>
        simp only [hm, hb, List.mem_append, List.mem_cons, List.not_mem_nil, reduceCtorEq,
          or_false, false_or, Event.CallMarshal.injEq] at h
        rcases h with (h | h) | h
        · exact absurd h hnot
        · rw [h]
        · have := (ha _ _ _ _ h).2.2.1
          simp [Event.isMarshal] at this

theorem Bootstrap_marshal (MicroCloud : ServiceType) (sh : ServiceHandler)
    (peers : GoMap String String) (ord : RangeOrder) (w : World) (sched : List Tick)
    (ts : TokenSet)
    (h : Event.CallMarshal ts ∈ (Bootstrap MicroCloud sh peers ord w sched).trace) :
    MicroCloud ∈ GoMap.keys sh.Services ∧
      ∃ tr, issueTokens peers ord.peers (sh.Services.rangeOver ord.issue) [] =
        (tr, Except.ok ts) := by
  have hk := bootstrapOthers_kinds MicroCloud (sh.Services.rangeOver ord.bootstrap)
  unfold Bootstrap at h
  cases hc : GoMap.get? sh.Services MicroCloud with
  | none => simp [hc] at h
  | some c =>
    refine ⟨(GoMap.mem_keys_iff _ _).2 ⟨c, hc⟩, ?_⟩
    cases hb : c.Bootstrap with
    | some err => simp [hc, hb] at h
    | none =>
      rcases ho : bootstrapOthers MicroCloud (sh.Services.rangeOver ord.bootstrap) with
        ⟨tr, _ | err⟩
      all_goals
        rw [ho] at hk
        simp only [hc, hb, ho, List.mem_append, List.mem_cons, reduceCtorEq,
          List.not_mem_nil, or_false, false_or] at h
      · rcases h with h | h
        · have := (hk _ h).2.1
          simp [Event.isMarshal] at this
        · exact issueAndAwait_marshal sh peers ord w sched ts h
      · have := (hk _ h).2.1
        simp [Event.isMarshal] at this

theorem mem_rangeOver {ν : Type} (m : GoMap String ν) (order : List String) (k : String) (v : ν)
    (hk : k ∈ order) (hv : GoMap.get? m k = some v) : (k, v) ∈ GoMap.rangeOver m order := by
  simp only [GoMap.rangeOver, List.mem_filterMap]
  exact ⟨k, hk, by simp [hv]⟩

theorem issueAndAwait_marshal_mem (sh : ServiceHandler) (peers : GoMap String String)
    (ord : RangeOrder) (w : World) (sched : List Tick) (tr : List Event) (ts : TokenSet)
    (h : issueTokens peers ord.peers (sh.Services.rangeOver ord.issue) [] = (tr, Except.ok ts)) :
    Event.CallMarshal ts ∈ (issueAndAwait sh peers ord w sched).trace := by
  unfold issueAndAwait
  rw [h]
  simp only
  cases hm : w.Marshal ts with
  | error err => simp
  | ok bytes =>
    cases hb : w.NewBroadcast MdnsService.TokenService sh.Name sh.Address sh.Port bytes <;>
      simp [hb]

/-- Claim C2.  With Go maps for the registry and the peers (distinct keys, every
`range` visiting each key once), the token set that a run of `Bootstrap` hands
to `json.Marshal` has distinct keys, exactly the peer names; the inner map of
every peer has distinct keys, exactly the service types of the registry, and
holds under each service type the token which that service's `IssueToken`
returned for the peer; so it holds `|peers| * |services|` tokens.  Such a token
set is built whenever the registry holds the primary service and every
`Bootstrap()` and `IssueToken` call succeeds. -/
theorem Bootstrap_token_set (MicroCloud : ServiceType) (sh : ServiceHandler)
    (peers : GoMap String String) (ord : RangeOrder) (w : World) (sched : List Tick)
    (hS : (GoMap.keys sh.Services).Nodup) (hP : (GoMap.keys peers).Nodup)
    (hord : ord.Valid sh.Services peers) :
    (∀ ts, Event.CallMarshal ts ∈ (Bootstrap MicroCloud sh peers ord w sched).trace →
      (GoMap.keys ts).Nodup ∧ (∀ p, p ∈ GoMap.keys ts ↔ p ∈ GoMap.keys peers) ∧
      (∀ p ∈ GoMap.keys peers, ∃ inner, GoMap.get? ts p = some inner ∧
        (GoMap.keys inner).Nodup ∧ (∀ t, t ∈ GoMap.keys inner ↔ t ∈ GoMap.keys sh.Services) ∧
        ∀ t s, GoMap.get? sh.Services t = some s →
          ∃ tok, s.IssueToken p = Except.ok tok ∧ GoMap.get? inner t = some tok) ∧
      TokenSet.count ts = peers.length * sh.Services.length) ∧
    (MicroCloud ∈ GoMap.keys sh.Services → (∀ a ∈ sh.Services, a.2.Bootstrap = none) →
      (∀ a ∈ sh.Services, ∀ p ∈ GoMap.keys peers, ∃ tok, a.2.IssueToken p = Except.ok tok) →
      ∃ ts, Event.CallMarshal ts ∈ (Bootstrap MicroCloud sh peers ord w sched).trace) := by
  obtain ⟨_, hissue, hpeers⟩ := hord
  have hkl : GoMap.keys (sh.Services.rangeOver ord.issue) = ord.issue :=
    rangeOver_keys _ _ (fun k hk => hissue.subset hk)
  constructor
  · intro ts hts
    obtain ⟨hmc, tr, hbuilt⟩ := Bootstrap_marshal MicroCloud sh peers ord w sched ts hts
    have hne : sh.Services.rangeOver ord.issue ≠ [] := by
      intro c
      have : MicroCloud ∈ GoMap.keys (sh.Services.rangeOver ord.issue) := by
        rw [hkl]; exact hissue.mem_iff.2 hmc
      rw [c] at this
      simp [GoMap.keys] at this
    obtain ⟨A, B, C, D, E, F⟩ := issueTokens_tokens peers ord.peers _ [] tr ts hbuilt
      (by rw [hkl]; exact hissue.nodup_iff.2 hS)
      (fun t => by
        rw [rangeOver_keys _ _ (fun k hk => (hpeers t).subset hk)]; exact hpeers t)
      hP
    have hkeys : ∀ p, p ∈ GoMap.keys ts ↔ p ∈ GoMap.keys peers := by
      intro p
      rw [D]
      simp [hne, GoMap.keys]
    refine ⟨E (by simp [GoMap.keys]), hkeys, ?_, ?_⟩
    · intro p hp
      obtain ⟨inner, hinner⟩ := (GoMap.mem_keys_iff _ _).1 ((hkeys p).2 hp)
      have htok : ∀ t, tokenAt ts p t = GoMap.get? inner t := by
        intro t; simp [tokenAt, hinner]
      have hfound : ∀ t s, GoMap.get? sh.Services t = some s →
          ∃ tok, s.IssueToken p = Except.ok tok ∧ GoMap.get? inner t = some tok := by
        intro t s hs
        have ht : t ∈ ord.issue :=
          hissue.mem_iff.2 ((GoMap.mem_keys_iff _ _).2 ⟨s, hs⟩)
        obtain ⟨tok, h1, h2⟩ := A (t, s) (mem_rangeOver _ _ t s ht hs) p hp
        exact ⟨tok, h1, by rw [← htok]; exact h2⟩
      refine ⟨inner, hinner, F (by simp) (p, inner) (GoMap.mem_of_get? _ _ _ hinner), ?_, hfound⟩
      intro t
      constructor
      · intro ht
        by_contra hnot
        have hnot' : t ∉ GoMap.keys (sh.Services.rangeOver ord.issue) := by
          rw [hkl]; exact fun c => hnot (hissue.mem_iff.1 c)
        have := B p t (Or.inr hnot')
        rw [htok] at this
        simp only [tokenAt, GoMap.get?, Option.none_bind] at this
        exact (GoMap.get?_eq_none_iff _ _).1 this ht
      · intro ht
        obtain ⟨s, hs⟩ := (GoMap.mem_keys_iff _ _).1 ht
        obtain ⟨tok, _, h2⟩ := hfound t s hs
        exact (GoMap.mem_keys_iff _ _).2 ⟨tok, h2⟩
    · have hlen : (sh.Services.rangeOver ord.issue).length = sh.Services.length := by
        have h1 : (GoMap.keys (sh.Services.rangeOver ord.issue)).length = ord.issue.length := by
          rw [hkl]
        have h2 := hissue.length_eq
        simp only [GoMap.keys, List.length_map] at h1 h2
        omega
      rw [C (fun t _ p _ => by simp [tokenAt, GoMap.get?]), hlen]
      simp [TokenSet.count, Nat.mul_comm]
  · intro hmc hboot hall
    obtain ⟨c, hc⟩ := (GoMap.mem_keys_iff _ _).1 hmc
    have hcb : c.Bootstrap = none := hboot (MicroCloud, c) (GoMap.mem_of_get? _ _ _ hc)
    have hok := bootstrapOthers_ok MicroCloud (sh.Services.rangeOver ord.bootstrap)
      (fun a ha => hboot a (rangeOver_mem _ _ a ha).1)
    obtain ⟨tr, ts, hbuilt⟩ := issueTokens_ok peers ord.peers
      (sh.Services.rangeOver ord.issue) []
      (fun a ha => hall a (rangeOver_mem _ _ a ha).1)
    refine ⟨ts, ?_⟩
    have hm := issueAndAwait_marshal_mem sh peers ord w sched tr ts hbuilt
    unfold Bootstrap
    rcases ho : bootstrapOthers MicroCloud (sh.Services.rangeOver ord.bootstrap) with
      ⟨tr1, _ | err⟩
    · simp only [hc, hcb, ho, List.mem_append]
      exact Or.inr hm
    · rw [ho] at hok
      cases hok

/-! ## The reconciliation loop: outcomes -/

theorem afterPolls_cons (T : TokenSet) (A : GoMap String String)
    (polls : List (GoMap String String)) :
    afterPolls T (A :: polls) = afterPolls (reconcile T A).2 polls := rfl

theorem afterPolls_eq_filter (T : TokenSet) (polls : List (GoMap String String)) :
    afterPolls T polls = T.filter (fun e => decide (∀ A ∈ polls, e.1 ∉ GoMap.keys A)) := by
  induction polls generalizing T with
  | nil => simp [afterPolls]
  | cons A polls ih =>
    rw [afterPolls_cons, ih, reconcile_tokens, List.filter_filter]
    apply List.filter_congr
    intro e _
    simp only [List.mem_cons, forall_eq_or_imp, Bool.decide_and, Bool.and_comm]

theorem reconcile_events (T : TokenSet) (A : List (String × String)) :
    ∀ x ∈ (reconcile T A).1, x.isComplete = false := by
  induction A generalizing T with
  | nil => simp [reconcile]
  | cons a rest ih =>
    obtain ⟨p, y⟩ := a
    cases h : GoMap.get? T p with
    | none => simpa [reconcile, h] using ih (GoMap.delete T p)
    | some v =>
      intro x hx
      simp only [reconcile, h, List.mem_cons] at hx
      rcases hx with hx | hx
      · subst hx; rfl
      · exact ih _ x hx

theorem countP_eq_zero_of {p : Event → Bool} {l : List Event} (h : ∀ x ∈ l, p x = false) :
    l.countP p = 0 := by
  rw [List.countP_eq_zero]
  intro x hx
  simp [h x hx]

/-- The loop while the polls succeed and the deadline has not fired: as long as
every earlier poll left tokens behind, the loop consumes the polls one by one,
shutting nothing down, and goes on with the reconciled token set. -/
theorem awaitLoop_polls (w : World) (name : String) (T : TokenSet) (ticks : List Tick)
    (polls : List (GoMap String String)) (rest : List Tick)
    (hticks : List.Forall₂ (fun t A => t.timeAfter = false ∧ t.LookupPeers = Except.ok A)
      ticks polls)
    (hpending : ∀ q, q <+: polls → q ≠ [] → q ≠ polls → afterPolls T q ≠ []) :
    ∃ tr,
      (awaitLoop w name T false (ticks ++ rest)).trace = tr ++
        (awaitLoop w name (afterPolls T polls)
          (decide (polls ≠ [] ∧ (afterPolls T polls).len = 0)) rest).trace ∧
      (awaitLoop w name T false (ticks ++ rest)).status =
        (awaitLoop w name (afterPolls T polls)
          (decide (polls ≠ [] ∧ (afterPolls T polls).len = 0)) rest).status ∧
      (awaitLoop w name T false (ticks ++ rest)).tokensByName =
        (awaitLoop w name (afterPolls T polls)
          (decide (polls ≠ [] ∧ (afterPolls T polls).len = 0)) rest).tokensByName ∧
      tr.countP Event.isShutdown = 0 ∧ tr.countP Event.isComplete = 0 ∧
      tr.countP Event.isLookupPeers = polls.length := by
  induction hticks generalizing T with
  | nil => exact ⟨[], by simp [afterPolls]⟩
  | @cons t A ticks polls hta _ ih =>
    obtain ⟨ht, hA⟩ := hta
    have hstep : awaitLoop w name T false (t :: (ticks ++ rest)) =
        ⟨Event.Sleep 100 ::
            Event.CallLookupPeers MdnsService.JoinedService name (Except.ok A) ::
            (reconcile T A).1 ++
            (awaitLoop w name (reconcile T A).2 (decide ((reconcile T A).2.len = 0))
              (ticks ++ rest)).trace,
          (awaitLoop w name (reconcile T A).2 (decide ((reconcile T A).2.len = 0))
              (ticks ++ rest)).status,
          (awaitLoop w name (reconcile T A).2 (decide ((reconcile T A).2.len = 0))
              (ticks ++ rest)).tokensByName⟩ := by
      simp [awaitLoop, ht, hA]
    have hk := reconcile_kinds T A
    have he := reconcile_events T A
    have hhead : (Event.Sleep 100 ::
        Event.CallLookupPeers MdnsService.JoinedService name (Except.ok A) ::
        (reconcile T A).1).countP Event.isShutdown = 0 ∧
        (Event.Sleep 100 ::
        Event.CallLookupPeers MdnsService.JoinedService name (Except.ok A) ::
        (reconcile T A).1).countP Event.isComplete = 0 ∧
        (Event.Sleep 100 ::
        Event.CallLookupPeers MdnsService.JoinedService name (Except.ok A) ::
        (reconcile T A).1).countP Event.isLookupPeers = 1 := by
      have c1 := countP_eq_zero_of (p := Event.isShutdown) (fun x hx => (hk x hx).2.2.2.2.1)
      have c2 := countP_eq_zero_of (p := Event.isComplete) he
      have c3 := countP_eq_zero_of (p := Event.isLookupPeers) (fun x hx => (hk x hx).2.2.2.2.2)
      simp [List.countP_cons, c1, c2, c3, Event.isShutdown, Event.isComplete,
        Event.isLookupPeers]
    rw [List.cons_append, hstep, afterPolls_cons]
    cases polls with
    | nil =>
      cases ‹List.Forall₂ _ ticks []›
      refine ⟨_, ?_, ?_, ?_, hhead.1, hhead.2.1, by simpa using hhead.2.2⟩ <;>
        simp [afterPolls]
    | cons B polls =>
      have hne : (reconcile T A).2 ≠ [] := by
        have := hpending [A] (by simp [List.prefix_cons_iff]) (by simp) (by simp)
        simpa [afterPolls] using this
      have hdec : decide ((reconcile T A).2.len = 0) = false := by
        simpa [GoMap.len] using hne
      obtain ⟨tr, h1, h2, h3, h4, h5, h6⟩ := ih (reconcile T A).2 (fun q hq hq1 hq2 => by
        have := hpending (A :: q) (by simpa [List.prefix_cons_iff] using hq) (by simp)
          (by simpa using hq2)
        simpa [afterPolls_cons] using this)
      rw [hdec]
      have hE : decide (A :: B :: polls ≠ [] ∧ (afterPolls (reconcile T A).2 (B :: polls)).len = 0)
          = decide (B :: polls ≠ [] ∧ (afterPolls (reconcile T A).2 (B :: polls)).len = 0) := by
        simp
      rw [hE]
      refine ⟨Event.Sleep 100 ::
        Event.CallLookupPeers MdnsService.JoinedService name (Except.ok A) ::
        (reconcile T A).1 ++ tr, ?_, h2, h3, ?_, ?_, ?_⟩
      · simp only [h1, List.append_assoc]
      · rw [List.countP_append, hhead.1, h4]
      · rw [List.countP_append, hhead.2.1, h5]
      · rw [List.countP_append, hhead.2.2, h6]; simp only [List.length_cons]; omega

theorem bootstrapOthers_events (mc : ServiceType) (l : List (ServiceType × Service)) :
    ∀ x ∈ (bootstrapOthers mc l).1, x.isComplete = false := by
  induction l with
  | nil => simp [bootstrapOthers]
  | cons a l ih =>
    obtain ⟨t, s⟩ := a
    by_cases ht : t = mc
    · simpa [bootstrapOthers, ht] using ih
    · cases hb : s.Bootstrap with
      | some err => simp [bootstrapOthers, ht, hb, Event.isComplete]
      | none =>
        intro x hx
        simp only [bootstrapOthers, ht, hb, if_false, List.mem_cons] at hx
        rcases hx with hx | hx | hx
        · subst hx; rfl
        · subst hx; rfl
        · exact ih x hx

theorem issueForPeers_events (t : ServiceType) (s : Service) (ps : List String) (ts : TokenSet) :
    ∀ x ∈ (issueForPeers t s ps ts).1, x.isComplete = false := by
  induction ps generalizing ts with
  | nil => simp [issueForPeers]
  | cons p ps ih =>
    cases hi : s.IssueToken p with
    | error err => simp [issueForPeers, hi, Event.isComplete]
    | ok token =>
      intro x hx
      simp only [issueForPeers, hi, List.mem_cons] at hx
      rcases hx with hx | hx
      · subst hx; rfl
      · exact ih _ x hx

theorem issueTokens_events (peers : GoMap String String) (po : ServiceType → List String)
    (l : List (ServiceType × Service)) (ts : TokenSet) :
    ∀ x ∈ (issueTokens peers po l ts).1, x.isComplete = false := by
  induction l generalizing ts with
  | nil => simp [issueTokens]
  | cons a l ih =>
    obtain ⟨t, s⟩ := a
    have hk := issueForPeers_events t s (GoMap.keys (peers.rangeOver (po t))) ts
    rcases hf : issueForPeers t s (GoMap.keys (peers.rangeOver (po t))) ts with ⟨tr, err | ts1⟩
    · rw [hf] at hk
      simpa [issueTokens, hf] using hk
    · rw [hf] at hk
      intro x hx
      simp only [issueTokens, hf, List.mem_append] at hx
      rcases hx with hx | hx
      · exact hk x hx
      · exact ih _ x hx

/-- A run in which every local bootstrap, every token issuance, the encoding and
the start of the broadcast succeed enters the reconciliation loop with the
token set just built, having shut nothing down. -/
theorem Bootstrap_started (MicroCloud : ServiceType) (sh : ServiceHandler)
    (peers : GoMap String String) (ord : RangeOrder) (w : World) (sched : List Tick)
    (c : Service) (tr : List Event) (ts0 : TokenSet) (bytes : String)
    (hc : GoMap.get? sh.Services MicroCloud = some c)
    (hboot : ∀ a ∈ sh.Services, a.2.Bootstrap = none)
    (hissue : issueTokens peers ord.peers (sh.Services.rangeOver ord.issue) [] =
      (tr, Except.ok ts0))
    (hm : w.Marshal ts0 = Except.ok bytes)
    (hb : w.NewBroadcast MdnsService.TokenService sh.Name sh.Address sh.Port bytes = none) :
    ∃ pre,
      (Bootstrap MicroCloud sh peers ord w sched).trace =
        pre ++ (awaitLoop w sh.Name ts0 false sched).trace ∧
      (Bootstrap MicroCloud sh peers ord w sched).status =
        (awaitLoop w sh.Name ts0 false sched).status ∧
      (Bootstrap MicroCloud sh peers ord w sched).tokensByName =
        (awaitLoop w sh.Name ts0 false sched).tokensByName ∧
      pre.countP Event.isShutdown = 0 ∧ pre.countP Event.isComplete = 0 ∧
      pre.countP Event.isLookupPeers = 0 := by
  have hcb : c.Bootstrap = none := hboot (MicroCloud, c) (GoMap.mem_of_get? _ _ _ hc)
  have hok := bootstrapOthers_ok MicroCloud (sh.Services.rangeOver ord.bootstrap)
    (fun a ha => hboot a (rangeOver_mem _ _ a ha).1)
  have hk1 := bootstrapOthers_kinds MicroCloud (sh.Services.rangeOver ord.bootstrap)
  have he1 := bootstrapOthers_events MicroCloud (sh.Services.rangeOver ord.bootstrap)
  have hk2 := issueTokens_kinds peers ord.peers (sh.Services.rangeOver ord.issue) []
  have he2 := issueTokens_events peers ord.peers (sh.Services.rangeOver ord.issue) []
  rw [hissue] at hk2 he2
  rcases ho : bootstrapOthers MicroCloud (sh.Services.rangeOver ord.bootstrap) with
    ⟨tr1, _ | err⟩
  swap
  · rw [ho] at hok
    cases hok
  rw [ho] at hk1 he1
  have a1 := countP_eq_zero_of (p := Event.isShutdown) (fun x hx => (hk1 x hx).2.2.2.1)
  have a2 := countP_eq_zero_of (p := Event.isComplete) he1
  have a3 := countP_eq_zero_of (p := Event.isLookupPeers) (fun x hx => (hk1 x hx).2.2.2.2)
  have b1 := countP_eq_zero_of (p := Event.isShutdown) (fun x hx => (hk2 x hx).2.2.2.1)
  have b2 := countP_eq_zero_of (p := Event.isComplete) he2
  have b3 := countP_eq_zero_of (p := Event.isLookupPeers) (fun x hx => (hk2 x hx).2.2.2.2)
  simp only at a1 a2 a3 b1 b2 b3
  refine ⟨[Event.Println "Initializing a new cluster", Event.CallBootstrap MicroCloud none,
      Event.PrintBootstrapped MicroCloud] ++ tr1 ++ (tr ++ [Event.CallMarshal ts0,
      Event.Println "Awaiting cluster formation...",
      Event.CallNewBroadcast MdnsService.TokenService sh.Name sh.Address sh.Port bytes none]),
    ?_, ?_, ?_, ?_, ?_, ?_⟩
  · simp [Bootstrap, issueAndAwait, hc, hcb, ho, hissue, hm, hb]
  · simp [Bootstrap, issueAndAwait, hc, hcb, ho, hissue, hm, hb]
  · simp [Bootstrap, issueAndAwait, hc, hcb, ho, hissue, hm, hb]
  · simp [List.countP_append, List.countP_cons, a1, b1, Event.isShutdown]
  · simp [List.countP_append, List.countP_cons, a2, b2, Event.isComplete]
  · simp [List.countP_append, List.countP_cons, a3, b3, Event.isLookupPeers]

theorem pending_of_take (T : TokenSet) (polls : List (GoMap String String))
    (h : ∀ n, n < polls.length → 0 < n → afterPolls T (polls.take n) ≠ []) :
    ∀ q, q <+: polls → q ≠ [] → q ≠ polls → afterPolls T q ≠ [] := by
  intro q hq hq1 hq2
  have hlen : q.length < polls.length := by
    rcases Nat.lt_or_ge q.length polls.length with h1 | h1
    · exact h1
    · exact absurd (hq.eq_of_length (Nat.le_antisymm hq.length_le h1)) hq2
  have := h q.length hlen (List.length_pos.2 hq1)
  rwa [← List.prefix_iff_eq_take.1 hq] at this

/-- Claim C8, amended.  Take a run of `Bootstrap` whose broadcast has started
with the token set `ts0`, whose reconciliation polls all succeed before the
deadline fires and leave tokens behind until the last of them empties the token
set, whose next `select` does not take the deadline case, and whose
`server.Shutdown()` succeeds.  The run returns nil with an empty token set; it
calls `server.Shutdown` exactly once, performs exactly those polls and no
further one, and ends by reporting "Cluster initialization is complete" and
shutting the broadcast down. -/
theorem Bootstrap_complete (MicroCloud : ServiceType) (sh : ServiceHandler)
    (peers : GoMap String String) (ord : RangeOrder) (w : World)
    (c : Service) (tr : List Event) (ts0 : TokenSet) (bytes : String)
    (ticks : List Tick) (polls : List (GoMap String String)) (fin : Tick) (rest : List Tick)
    (hc : GoMap.get? sh.Services MicroCloud = some c)
    (hboot : ∀ a ∈ sh.Services, a.2.Bootstrap = none)
    (hissue : issueTokens peers ord.peers (sh.Services.rangeOver ord.issue) [] =
      (tr, Except.ok ts0))
    (hm : w.Marshal ts0 = Except.ok bytes)
    (hb : w.NewBroadcast MdnsService.TokenService sh.Name sh.Address sh.Port bytes = none)
    (hsd : w.Shutdown = none)
    (hticks : List.Forall₂ (fun t A => t.timeAfter = false ∧ t.LookupPeers = Except.ok A)
      ticks polls)
    (hpending : ∀ n, n < polls.length → 0 < n → afterPolls ts0 (polls.take n) ≠ [])
    (hne : polls ≠ [])
    (hempty : afterPolls ts0 polls = [])
    (hfin : (fin.timeAfter && fin.pickTimeAfter) = false) :
    (Bootstrap MicroCloud sh peers ord w (ticks ++ fin :: rest)).status
        = Status.returned none ∧
      (Bootstrap MicroCloud sh peers ord w (ticks ++ fin :: rest)).tokensByName = [] ∧
      (Bootstrap MicroCloud sh peers ord w (ticks ++ fin :: rest)).trace.countP
        Event.isShutdown = 1 ∧
      (Bootstrap MicroCloud sh peers ord w (ticks ++ fin :: rest)).trace.countP
        Event.isLookupPeers = polls.length ∧
      [Event.Println "Cluster initialization is complete",
        Event.LogInfo "Shutting down broadcast", Event.CallShutdown none] <:+
        (Bootstrap MicroCloud sh peers ord w (ticks ++ fin :: rest)).trace := by
  obtain ⟨pre, p1, p2, p3, p4, _, p6⟩ := Bootstrap_started MicroCloud sh peers ord w
    (ticks ++ fin :: rest) c tr ts0 bytes hc hboot hissue hm hb
  obtain ⟨mid, q1, q2, q3, q4, _, q6⟩ := awaitLoop_polls w sh.Name ts0 ticks polls
    (fin :: rest) hticks (pending_of_take ts0 polls hpending)
  have hlast : awaitLoop w sh.Name (afterPolls ts0 polls)
      (decide (polls ≠ [] ∧ (afterPolls ts0 polls).len = 0)) (fin :: rest) =
      ⟨[Event.Println "Cluster initialization is complete",
        Event.LogInfo "Shutting down broadcast", Event.CallShutdown none],
        Status.returned none, []⟩ := by
    simp [hempty, hne, GoMap.len, awaitLoop, hfin, hsd]
  rw [hlast] at q1 q2 q3
  rw [p1, p2, p3, q1, q2, q3]
  refine ⟨rfl, rfl, ?_, ?_, ?_⟩
  · simp [List.countP_append, List.countP_cons, p4, q4, Event.isShutdown]
  · simp [List.countP_append, List.countP_cons, p6, q6, Event.isLookupPeers]
  · exact ⟨pre ++ mid, by simp⟩

/-- Claim C9.  Take a run of `Bootstrap` whose broadcast has started with the
token set `ts0`, whose reconciliation polls all succeed and leave tokens behind,
whose next `select` finds the deadline fired, and whose `server.Shutdown()`
succeeds.  The run returns nil without reporting completion, calls
`server.Shutdown` exactly once, and its token set is `ts0` restricted, entries
unchanged, to the peers that no poll announced. -/
theorem Bootstrap_timed_out (MicroCloud : ServiceType) (sh : ServiceHandler)
    (peers : GoMap String String) (ord : RangeOrder) (w : World)
    (c : Service) (tr : List Event) (ts0 : TokenSet) (bytes : String)
    (ticks : List Tick) (polls : List (GoMap String String)) (fin : Tick) (rest : List Tick)
    (hc : GoMap.get? sh.Services MicroCloud = some c)
    (hboot : ∀ a ∈ sh.Services, a.2.Bootstrap = none)
    (hissue : issueTokens peers ord.peers (sh.Services.rangeOver ord.issue) [] =
      (tr, Except.ok ts0))
    (hm : w.Marshal ts0 = Except.ok bytes)
    (hb : w.NewBroadcast MdnsService.TokenService sh.Name sh.Address sh.Port bytes = none)
    (hsd : w.Shutdown = none)
    (hticks : List.Forall₂ (fun t A => t.timeAfter = false ∧ t.LookupPeers = Except.ok A)
      ticks polls)
    (hpending : ∀ n, n ≤ polls.length → 0 < n → afterPolls ts0 (polls.take n) ≠ [])
    (hfin : fin.timeAfter = true) :
    (Bootstrap MicroCloud sh peers ord w (ticks ++ fin :: rest)).status
        = Status.returned none ∧
      (Bootstrap MicroCloud sh peers ord w (ticks ++ fin :: rest)).tokensByName =
        ts0.filter (fun e => decide (∀ A ∈ polls, e.1 ∉ GoMap.keys A)) ∧
      (Bootstrap MicroCloud sh peers ord w (ticks ++ fin :: rest)).trace.countP
        Event.isShutdown = 1 ∧
      (Bootstrap MicroCloud sh peers ord w (ticks ++ fin :: rest)).trace.countP
        Event.isComplete = 0 := by
  obtain ⟨pre, p1, p2, p3, p4, p5, _⟩ := Bootstrap_started MicroCloud sh peers ord w
    (ticks ++ fin :: rest) c tr ts0 bytes hc hboot hissue hm hb
  obtain ⟨mid, q1, q2, q3, q4, q5, _⟩ := awaitLoop_polls w sh.Name ts0 ticks polls
    (fin :: rest) hticks
    (pending_of_take ts0 polls (fun n hn => hpending n (Nat.le_of_lt hn)))
  have hopen : decide (polls ≠ [] ∧ (afterPolls ts0 polls).len = 0) = false := by
    rw [decide_eq_false_iff_not]
    rintro ⟨h1, h2⟩
    have := hpending polls.length (Nat.le_refl _) (List.length_pos.2 h1)
    rw [List.take_length] at this
    exact this (List.length_eq_zero.1 h2)
  have hlast : awaitLoop w sh.Name (afterPolls ts0 polls)
      (decide (polls ≠ [] ∧ (afterPolls ts0 polls).len = 0)) (fin :: rest) =
      ⟨[Event.LogInfo "Shutting down broadcast", Event.CallShutdown none],
        Status.returned none, afterPolls ts0 polls⟩ := by
    rw [hopen]
    simp [awaitLoop, hfin, hsd]
  rw [hlast] at q1 q2 q3
  rw [p1, p2, p3, q1, q2, q3]
  refine ⟨rfl, afterPolls_eq_filter ts0 polls, ?_, ?_⟩
  · simp [List.countP_append, List.countP_cons, p4, q4, Event.isShutdown]
  · simp [List.countP_append, List.countP_cons, p5, q5, Event.isComplete]

/-! ## The concrete session -/

/-- Claim C1, at a failing input.  The broadcast is started (`mdns.NewBroadcast`
returns a server), the first lookup of joined peers fails, and `Bootstrap`
returns the lookup error without a single call of `server.Shutdown`. -/
theorem Bootstrap_lookup_failure_skips_shutdown :
    (Bootstrap "MicroCloud" (exHandler (exService "lxd-")) exPeers exOrder (exWorld none)
        [⟨false, false, Except.error "mdns: query failed"⟩]).status
      = Status.returned (some (Error.FailedLookup "mdns: query failed")) ∧
    Event.CallNewBroadcast MdnsService.TokenService "node0" "10.0.0.1" 7443 "payload" none ∈
      (Bootstrap "MicroCloud" (exHandler (exService "lxd-")) exPeers exOrder (exWorld none)
        [⟨false, false, Except.error "mdns: query failed"⟩]).trace ∧
    (Bootstrap "MicroCloud" (exHandler (exService "lxd-")) exPeers exOrder (exWorld none)
        [⟨false, false, Except.error "mdns: query failed"⟩]).trace.countP Event.isShutdown
      = 0 := by
  decide

/-- Claim C2 at a concrete input: two services and two peers give four tokens. -/
theorem Bootstrap_token_set_witness :
    (GoMap.keys (exHandler (exService "lxd-")).Services).Nodup ∧
      (GoMap.keys exPeers).Nodup ∧
      exOrder.Valid (exHandler (exService "lxd-")).Services exPeers ∧
      TokenSet.count exTokens =
        exPeers.length * (exHandler (exService "lxd-")).Services.length :=
  have h1 : (GoMap.keys (exHandler (exService "lxd-")).Services).Nodup := by decide
  have h2 : (GoMap.keys exPeers).Nodup := by decide
  have h3 : exOrder.Valid (exHandler (exService "lxd-")).Services exPeers :=
    ⟨List.Perm.swap _ _ _, List.Perm.refl _, fun _ => List.Perm.refl _⟩
  ⟨h1, h2, h3,
    ((Bootstrap_token_set "MicroCloud" (exHandler (exService "lxd-")) exPeers exOrder
      (exWorld none) [] h1 h2 h3).1 exTokens (by decide)).2.2.2⟩

/-- Claim C3 at a concrete input: the loop visits LXD before MicroCloud, and
MicroCloud is still bootstrapped first and once. -/
theorem Bootstrap_primary_first_witness :
    "MicroCloud" ∈ GoMap.keys (exHandler (exService "lxd-")).Services ∧
      (bootstrapCalls (Bootstrap "MicroCloud" (exHandler (exService "lxd-")) exPeers exOrder
        (exWorld none) []).trace).Perm (GoMap.keys (exHandler (exService "lxd-")).Services) :=
  ⟨by decide,
    (Bootstrap_primary_first "MicroCloud" (exHandler (exService "lxd-")) exPeers exOrder
      (exWorld none) [] (by decide)).2 (by decide) (List.Perm.swap _ _ _) (by decide)⟩

/-- Claim C5 at a concrete input: LXD refuses a token to peer "b". -/
theorem Bootstrap_issue_failure_witness :
    Event.CallIssueToken "LXD" "b" (Except.error "not authorized") ∈
        (Bootstrap "MicroCloud" (exHandler exPickyService) exPeers exOrder
          (exWorld none) []).trace ∧
      (Bootstrap "MicroCloud" (exHandler exPickyService) exPeers exOrder
          (exWorld none) []).status
        = Status.returned (some (Error.FailedIssue "LXD" "b" "not authorized")) :=
  ⟨by decide,
    (Bootstrap_issue_failure "MicroCloud" (exHandler exPickyService) exPeers exOrder
      (exWorld none) [] "LXD" "b" "not authorized" (by decide)).1⟩

/-- Claim C6 at a concrete input: the local LXD fails to bootstrap. -/
theorem Bootstrap_bootstrap_failure_witness :
    Event.CallBootstrap "LXD" (some "daemon not running") ∈
        (Bootstrap "MicroCloud" (exHandler exDownService) exPeers exOrder
          (exWorld none) []).trace ∧
      (Bootstrap "MicroCloud" (exHandler exDownService) exPeers exOrder
          (exWorld none) []).status
        = Status.returned (some (Error.FailedBootstrap "LXD" "daemon not running")) :=
  ⟨by decide,
    (Bootstrap_bootstrap_failure "MicroCloud" (exHandler exDownService) exPeers exOrder
      (exWorld none) [] "LXD" "daemon not running" (by decide)).1⟩

/-- Claim C8 as stated fails: both peers are announced by the first poll, the
token set is empty and completion is reported, yet `server.Shutdown()` fails and
`Bootstrap` returns that failure as an error. -/
theorem Bootstrap_complete_shutdown_error :
    (Bootstrap "MicroCloud" (exHandler (exService "lxd-")) exPeers exOrder
        (exWorld (some "server already closed"))
        [⟨false, false, Except.ok exPeers⟩, ⟨false, false, Except.ok []⟩]).tokensByName = [] ∧
    Event.Println "Cluster initialization is complete" ∈
      (Bootstrap "MicroCloud" (exHandler (exService "lxd-")) exPeers exOrder
        (exWorld (some "server already closed"))
        [⟨false, false, Except.ok exPeers⟩, ⟨false, false, Except.ok []⟩]).trace ∧
    (Bootstrap "MicroCloud" (exHandler (exService "lxd-")) exPeers exOrder
        (exWorld (some "server already closed"))
        [⟨false, false, Except.ok exPeers⟩, ⟨false, false, Except.ok []⟩]).status
      = Status.returned (some (Error.FailedShutdown "server already closed")) ∧
    (Bootstrap "MicroCloud" (exHandler (exService "lxd-")) exPeers exOrder
        (exWorld (some "server already closed"))
        [⟨false, false, Except.ok exPeers⟩, ⟨false, false, Except.ok []⟩]).status
      ≠ Status.returned none := by
  decide

/-- Claim C8 (amended) at a concrete input: peer "a" is announced by the first
poll, peer "b" by the second, and the next iteration completes the session. -/
theorem Bootstrap_complete_witness :
    issueTokens exPeers exOrder.peers
        ((exHandler (exService "lxd-")).Services.rangeOver exOrder.issue) [] =
        (exIssueTrace, Except.ok exTokens) ∧
      List.Forall₂ (fun t A => t.timeAfter = false ∧ t.LookupPeers = Except.ok A)
        exTicks exPolls ∧
      (∀ n, n < exPolls.length → 0 < n → afterPolls exTokens (exPolls.take n) ≠ []) ∧
      afterPolls exTokens exPolls = [] ∧
      (Bootstrap "MicroCloud" (exHandler (exService "lxd-")) exPeers exOrder (exWorld none)
        (exTicks ++ [⟨false, false, Except.ok []⟩])).status = Status.returned none ∧
      (Bootstrap "MicroCloud" (exHandler (exService "lxd-")) exPeers exOrder (exWorld none)
        (exTicks ++ [⟨false, false, Except.ok []⟩])).trace.countP Event.isShutdown = 1 :=
  have h3 : issueTokens exPeers exOrder.peers
      ((exHandler (exService "lxd-")).Services.rangeOver exOrder.issue) [] =
      (exIssueTrace, Except.ok exTokens) := by decide
  have h7 : List.Forall₂ (fun t A => t.timeAfter = false ∧ t.LookupPeers = Except.ok A)
      exTicks exPolls := by decide
  have h8 : ∀ n, n < exPolls.length → 0 < n → afterPolls exTokens (exPolls.take n) ≠ [] := by
    intro n hn hpos
    have hn2 : n < 2 := hn
    have h1 : n = 1 := by omega
    subst h1
    decide
  have h9 : afterPolls exTokens exPolls = [] := by decide
  have key := Bootstrap_complete "MicroCloud" (exHandler (exService "lxd-")) exPeers exOrder
    (exWorld none) (exService "mc-") exIssueTrace exTokens "payload" exTicks exPolls
    ⟨false, false, Except.ok []⟩ [] rfl (by decide) h3 rfl rfl rfl h7 h8 (by decide) h9 rfl
  ⟨h3, h7, h8, h9, key.1, key.2.2.1⟩

/-- Claim C9 at a concrete input: only peer "a" is announced before the deadline
fires, and the tokens of peer "b" are what remains. -/
theorem Bootstrap_timed_out_witness :
    issueTokens exPeers exOrder.peers
        ((exHandler (exService "lxd-")).Services.rangeOver exOrder.issue) [] =
        (exIssueTrace, Except.ok exTokens) ∧
      (∀ n, n ≤ (exPolls.take 1).length → 0 < n →
        afterPolls exTokens ((exPolls.take 1).take n) ≠ []) ∧
      (Bootstrap "MicroCloud" (exHandler (exService "lxd-")) exPeers exOrder (exWorld none)
        (exTicks.take 1 ++ [⟨true, false, Except.ok []⟩])).status = Status.returned none ∧
      (Bootstrap "MicroCloud" (exHandler (exService "lxd-")) exPeers exOrder (exWorld none)
        (exTicks.take 1 ++ [⟨true, false, Except.ok []⟩])).tokensByName =
        [("b", [("MicroCloud", "mc-b"), ("LXD", "lxd-b")])] :=
  have h3 : issueTokens exPeers exOrder.peers
      ((exHandler (exService "lxd-")).Services.rangeOver exOrder.issue) [] =
      (exIssueTrace, Except.ok exTokens) := by decide
  have h8 : ∀ n, n ≤ (exPolls.take 1).length → 0 < n →
      afterPolls exTokens ((exPolls.take 1).take n) ≠ [] := by
    intro n hn hpos
    have hn2 : n ≤ 1 := hn
    have h1 : n = 1 := by omega
    subst h1
    decide
  have key := Bootstrap_timed_out "MicroCloud" (exHandler (exService "lxd-")) exPeers exOrder
    (exWorld none) (exService "mc-") exIssueTrace exTokens "payload" (exTicks.take 1)
    (exPolls.take 1) ⟨true, false, Except.ok []⟩ [] rfl (by decide) h3 rfl rfl rfl (by decide)
    h8 rfl
  ⟨h3, h8, key.1, key.2.1.trans (by decide)⟩

end Microcloud
